import Mathlib

/-!
# AQS: PMS5003 serial frame driver and EPA AQI derivation

A shallow embedding of `src/PMS.cpp`, `src/PMS.h` and `src/aqi.h`.

* `uint8_t` values are elements of `Fin 256`; `uint16_t` and `uint32_t` values are
  natural numbers, reduced `% 65536` resp. `% 4294967296` wherever the C code stores
  into a variable of that width.
* The C++ object `PMS` becomes a record that is passed in and returned; the
  caller-owned `DATA& data` reference (kept by the class in the pointer `_data`) is passed
  in and returned next to it.
-/

namespace AQS

/-! ## The byte stream -/

/-- The C type `uint8_t`. -/
abbrev Byte := Fin 256

/-- Modelled from the spec: the Arduino `Stream` object behind `Stream& stream`
(`Stream.h` belongs to the Arduino core, not to this repository). Following §6 of the
specification it is a bidirectional byte stream: `rx` holds the bytes that are available
for reading, oldest first, and `tx` the bytes written so far, oldest first. -/
structure Stream where
  rx : List Byte
  tx : List Byte
deriving DecidableEq, Repr

namespace Stream

/-- Modelled from the spec: `availableByteCount()`, Arduino `Stream::available()`:
the number of bytes that can be read without waiting. -/
def available (s : Stream) : Nat := s.rx.length

/-- Modelled from the spec: `peekNextByte()`, Arduino `Stream::peek()`: the next byte
as an `int`, without consuming it; `-1` when nothing is available. -/
def peek (s : Stream) : Int :=
  match s.rx with
  | [] => -1
  | b :: _ => (b.val : Int)

/-- Modelled from the spec: `readByte()`, Arduino `Stream::read()`: consumes the next
byte and returns it as an `int`; `-1` and no effect when nothing is available. -/
def read (s : Stream) : Int × Stream :=
  match s.rx with
  | [] => (-1, s)
  | b :: rest => ((b.val : Int), { s with rx := rest })

/-- Modelled from the spec: `readExactly(n)`, Arduino `Stream::readBytes(buffer, n)`:
moves the first `n` available bytes into the buffer. (With fewer than `n` bytes
available Arduino waits for a timeout and fills the buffer only in part; the model
then returns the bytes there are.) -/
def readBytes (s : Stream) (n : Nat) : List Byte × Stream :=
  (s.rx.take n, { s with rx := s.rx.drop n })

/-- Modelled from the spec: `writeBytes(byte sequence)`, Arduino
`Stream::write(buffer, size)`: appends the bytes to the output side. -/
def write (s : Stream) (command : List Byte) : Stream :=
  { s with tx := s.tx ++ command }

end Stream

/-! ## `PMS.h` -/

/-- The record `struct pms5003data` of `PMS.h`: the 15 words of a report frame. -/
structure pms5003data where
  framelen : Nat
  pm10_standard : Nat
  pm25_standard : Nat
  pm100_standard : Nat
  pm10_env : Nat
  pm25_env : Nat
  pm100_env : Nat
  particles_03um : Nat
  particles_05um : Nat
  particles_10um : Nat
  particles_25um : Nat
  particles_50um : Nat
  particles_100um : Nat
  unused : Nat
  checksum : Nat
deriving DecidableEq, Repr

/-- The record `PMS::DATA` of `PMS.h`: the measurement handed to the caller. -/
structure DATA where
  PM_SP_UG_1_0 : Nat
  PM_SP_UG_2_5 : Nat
  PM_SP_UG_10_0 : Nat
  PM_AE_UG_1_0 : Nat
  PM_AE_UG_2_5 : Nat
  PM_AE_UG_10_0 : Nat
  PM_TOTALPARTICLES_0_3 : Nat
  PM_TOTALPARTICLES_0_5 : Nat
  PM_TOTALPARTICLES_1_0 : Nat
  PM_TOTALPARTICLES_2_5 : Nat
  PM_TOTALPARTICLES_5_0 : Nat
  PM_TOTALPARTICLES_10_0 : Nat
deriving DecidableEq, Repr

/-- The enumeration `PMS::STATUS`. -/
inductive STATUS where
  | STATUS_WAITING
  | STATUS_OK
deriving DecidableEq, Repr

/-- The enumeration `PMS::MODE`. -/
inductive MODE where
  | MODE_ACTIVE
  | MODE_PASSIVE
deriving DecidableEq, Repr

/-- The state of a `PMS` object that the member functions read or write: the stream
behind `_stream`, `_status` and `_mode`. (The members `_payload`, `_index`, `_frameLen`,
`_checksum` and `_calculatedChecksum` are used by no function of `PMS.cpp`; `_data`
points to the caller-owned record, which is passed explicitly.) -/
structure PMS where
  _stream : Stream
  _status : STATUS
  _mode : MODE
deriving DecidableEq, Repr

/-- The constructor `PMS::PMS(Stream&)`: stores the stream; `_mode` has the default
member initialiser `MODE_ACTIVE`; `_status` is left uninitialised, so its initial value
`status0` is arbitrary. -/
def PMS.new (stream : Stream) (status0 : STATUS) : PMS :=
  { _stream := stream, _status := status0, _mode := MODE.MODE_ACTIVE }

/-! ## `PMS.cpp` -/

/-- Function `PMS::sleep`. -/
def PMS.sleep (p : PMS) : PMS :=
  let command : List Byte := [0x42, 0x4D, 0xE4, 0x00, 0x00, 0x01, 0x73]
  { p with _stream := p._stream.write command }

/-- Function `PMS::wakeUp`. -/
def PMS.wakeUp (p : PMS) : PMS :=
  let command : List Byte := [0x42, 0x4D, 0xE4, 0x00, 0x01, 0x01, 0x74]
  { p with _stream := p._stream.write command }

/-- Function `PMS::activeMode`. -/
def PMS.activeMode (p : PMS) : PMS :=
  let command : List Byte := [0x42, 0x4D, 0xE1, 0x00, 0x01, 0x01, 0x71]
  { p with _stream := p._stream.write command, _mode := MODE.MODE_ACTIVE }

/-- Function `PMS::passiveMode`. -/
def PMS.passiveMode (p : PMS) : PMS :=
  let command : List Byte := [0x42, 0x4D, 0xE1, 0x00, 0x00, 0x01, 0x70]
  { p with _stream := p._stream.write command, _mode := MODE.MODE_PASSIVE }

/-- Function `PMS::requestRead`. -/
def PMS.requestRead (p : PMS) : PMS :=
  if p._mode = MODE.MODE_PASSIVE then
    let command : List Byte := [0x42, 0x4D, 0xE2, 0x00, 0x00, 0x01, 0x71]
    { p with _stream := p._stream.write command }
  else p

/-- The checksum loop of `PMS::loop`:
`for (uint8_t i=0; i<30; i++) sum += buffer[i];` with `uint16_t sum = 0`. -/
def checksumLoop (buffer : List Byte) : Nat :=
  (List.range 30).foldl (fun sum i => (sum + (buffer.getD i 0).val) % 65536) 0

/-- The body of the byte-order loop of `PMS::loop` for one `i`:
`buffer_u16[i] = buffer[2 + i*2 + 1]; buffer_u16[i] += (buffer[2 + i*2] << 8);`. -/
def wordAt (buffer : List Byte) (i : Nat) : Nat :=
  let w : Nat := (buffer.getD (2 + i * 2 + 1) 0).val
  (w + ((buffer.getD (2 + i * 2) 0).val <<< 8)) % 65536

/-- The byte-order loop of `PMS::loop`: `for (uint8_t i=0; i<15; i++) ...`, giving the
array `uint16_t buffer_u16[15]`. -/
def wordLoop (buffer : List Byte) : List Nat :=
  (List.range 15).map (wordAt buffer)

/-- The line `memcpy((void *)&sdata, (void *)buffer_u16, 30);` of `PMS::loop`: the 15
`uint16_t` members of `struct pms5003data`, in declaration order, are the 15 words. -/
def toSdata (buffer_u16 : List Nat) : pms5003data :=
  { framelen := buffer_u16.getD 0 0
    pm10_standard := buffer_u16.getD 1 0
    pm25_standard := buffer_u16.getD 2 0
    pm100_standard := buffer_u16.getD 3 0
    pm10_env := buffer_u16.getD 4 0
    pm25_env := buffer_u16.getD 5 0
    pm100_env := buffer_u16.getD 6 0
    particles_03um := buffer_u16.getD 7 0
    particles_05um := buffer_u16.getD 8 0
    particles_10um := buffer_u16.getD 9 0
    particles_25um := buffer_u16.getD 10 0
    particles_50um := buffer_u16.getD 11 0
    particles_100um := buffer_u16.getD 12 0
    unused := buffer_u16.getD 13 0
    checksum := buffer_u16.getD 14 0 }

/-- Function `PMS::loop`, one poll cycle. `data` is the record `_data` points to. -/
def PMS.loop (p : PMS) (data : DATA) : PMS × DATA :=
  let p := { p with _status := STATUS.STATUS_WAITING }
  if p._stream.available ≠ 0 then
    -- Read a byte at a time until we get to the special 0x42 start-byte
    if p._stream.peek ≠ 0x42 then
      ({ p with _stream := p._stream.read.2 }, data)
    -- Now read all 32 bytes
    else if p._stream.available < 32 then
      (p, data)
    else
      let (buffer, s) := p._stream.readBytes 32
      let p := { p with _stream := s }
      -- get checksum ready
      let sum := checksumLoop buffer
      let buffer_u16 := wordLoop buffer
      let sdata := toSdata buffer_u16
      if sum ≠ sdata.checksum then
        (p, data)
      else
        -- success!
        ({ p with _status := STATUS.STATUS_OK },
         { data with
           PM_SP_UG_1_0 := sdata.pm10_standard
           PM_SP_UG_2_5 := sdata.pm25_standard
           PM_SP_UG_10_0 := sdata.pm100_standard
           PM_AE_UG_1_0 := sdata.pm10_env
           PM_AE_UG_2_5 := sdata.pm25_env
           PM_AE_UG_10_0 := sdata.pm100_env
           PM_TOTALPARTICLES_0_3 := sdata.particles_03um
           PM_TOTALPARTICLES_0_5 := sdata.particles_05um
           PM_TOTALPARTICLES_1_0 := sdata.particles_10um
           PM_TOTALPARTICLES_2_5 := sdata.particles_25um
           PM_TOTALPARTICLES_5_0 := sdata.particles_50um
           PM_TOTALPARTICLES_10_0 := sdata.particles_100um })
  else
    (p, data)

/-- Function `PMS::read`: one poll cycle, then `return _status == STATUS_OK;`.
The result is the driver, the caller-owned record and the returned flag. -/
def PMS.read (p : PMS) (data : DATA) : PMS × DATA × Bool :=
  let (p, data) := p.loop data
  (p, data, decide (p._status = STATUS.STATUS_OK))

/-- The `do { ... } while (millis() - start < timeout);` loop of `PMS::readUntil`.
`millis k` is the value the `k`-th call of the Arduino function `millis()` returns
(a `uint32_t`), `t` counts the calls of `millis()` made so far, `n` the calls of
`loop()` made so far, and `fuel` bounds the number of iterations; `none` means that
the fuel did not suffice. The result carries both counters. -/
def PMS.readUntilLoop (millis : Nat → Nat) (start timeout : Nat) :
    Nat → Nat → Nat → PMS → DATA → Option (PMS × DATA × Nat × Nat)
  | 0, _, _, _, _ => none
  | fuel + 1, t, n, p, data =>
    let (p, data) := p.loop data
    if p._status = STATUS.STATUS_OK then some (p, data, t, n + 1)
    else if (millis t % 4294967296 + 4294967296 - start) % 4294967296 < timeout then
      PMS.readUntilLoop millis start timeout fuel (t + 1) (n + 1) p data
    else some (p, data, t + 1, n + 1)

/-- Function `PMS::readUntil` with `uint16_t timeout`: `uint32_t start = millis();`,
the loop, then `return _status == STATUS_OK;`. The calls of `millis()` take their
values from `millis 0`, `millis 1`, ...; the result is the driver, the caller-owned
record, the returned flag, and the numbers of `millis()` and of `loop()` calls made. -/
def PMS.readUntil (millis : Nat → Nat) (fuel : Nat) (p : PMS) (data : DATA)
    (timeout : Nat) : Option (PMS × DATA × Bool × Nat × Nat) :=
  let start := millis 0 % 4294967296
  match PMS.readUntilLoop millis start (timeout % 65536) fuel 1 0 p data with
  | none => none
  | some (p, data, t, n) => some (p, data, decide (p._status = STATUS.STATUS_OK), t, n)

/-! ## Specification-side notions -/

/-- The big-endian 16-bit value of a byte pair. -/
def be16 (hi lo : Byte) : Nat := hi.val * 256 + lo.val

/-- Byte `i` of a pending byte sequence (`0` beyond its end). -/
def byteAt (s : List Byte) (i : Nat) : Byte := s.getD i 0

/-- The sum of bytes 0..29 of a byte sequence, modulo 65536. -/
def frameSum (s : List Byte) : Nat := ((s.take 30).map (fun b => b.val)).sum % 65536

/-- The checksum of a frame at the head of `s` matches: the sum of bytes 0..29
(mod 65536) is the big-endian value of bytes 30 and 31. -/
def ChecksumOk (s : List Byte) : Prop := frameSum s = be16 (byteAt s 30) (byteAt s 31)

instance (s : List Byte) : Decidable (ChecksumOk s) :=
  inferInstanceAs (Decidable (frameSum s = be16 (byteAt s 30) (byteAt s 31)))

/-- The low eight bits of a number, as a byte. -/
def toByte (n : Nat) : Byte := ⟨n % 256, Nat.mod_lt n (by decide)⟩

/-- The two bytes of a 16-bit word, high byte first (big-endian). -/
def word16 (w : Nat) : List Byte := [toByte (w / 256), toByte w]

/-- The first 30 bytes of the report frame that carries measurement `m`, following the
wire format of the specification: 0x42, the second sync byte, the frame-length word, the
12 measurement words in the documented order, the reserved word; every word big-endian. -/
def encodeBody (second : Byte) (framelen : Nat) (m : DATA) (reserved : Nat) : List Byte :=
  [0x42, second] ++ word16 framelen
    ++ word16 m.PM_SP_UG_1_0 ++ word16 m.PM_SP_UG_2_5 ++ word16 m.PM_SP_UG_10_0
    ++ word16 m.PM_AE_UG_1_0 ++ word16 m.PM_AE_UG_2_5 ++ word16 m.PM_AE_UG_10_0
    ++ word16 m.PM_TOTALPARTICLES_0_3 ++ word16 m.PM_TOTALPARTICLES_0_5
    ++ word16 m.PM_TOTALPARTICLES_1_0 ++ word16 m.PM_TOTALPARTICLES_2_5
    ++ word16 m.PM_TOTALPARTICLES_5_0 ++ word16 m.PM_TOTALPARTICLES_10_0
    ++ word16 reserved

/-- The 32-byte report frame that carries measurement `m`: the 30 bytes of `encodeBody`
followed by the checksum word, the 16-bit sum of those 30 bytes, big-endian. -/
def encodeFrame (second : Byte) (framelen : Nat) (m : DATA) (reserved : Nat) : List Byte :=
  let body := encodeBody second framelen m reserved
  body ++ word16 ((body.map (fun b => b.val)).sum % 65536)

/-- Every field of a measurement is an unsigned 16-bit value. -/
def DATA.IsU16 (m : DATA) : Prop :=
  m.PM_SP_UG_1_0 < 65536 ∧ m.PM_SP_UG_2_5 < 65536 ∧ m.PM_SP_UG_10_0 < 65536 ∧
  m.PM_AE_UG_1_0 < 65536 ∧ m.PM_AE_UG_2_5 < 65536 ∧ m.PM_AE_UG_10_0 < 65536 ∧
  m.PM_TOTALPARTICLES_0_3 < 65536 ∧ m.PM_TOTALPARTICLES_0_5 < 65536 ∧
  m.PM_TOTALPARTICLES_1_0 < 65536 ∧ m.PM_TOTALPARTICLES_2_5 < 65536 ∧
  m.PM_TOTALPARTICLES_5_0 < 65536 ∧ m.PM_TOTALPARTICLES_10_0 < 65536

instance (m : DATA) : Decidable m.IsU16 := by unfold DATA.IsU16; infer_instance

/-- A sample report frame: length word 28, the measurement words 1, 2, ..., 12,
reserved word 0, checksum 0x00F9. -/
def sampleFrame : List Byte :=
  [0x42, 0x4D, 0x00, 0x1C, 0, 1, 0, 2, 0, 3, 0, 4, 0, 5, 0, 6, 0, 7, 0, 8, 0, 9, 0, 10,
   0, 11, 0, 12, 0, 0, 0x00, 0xF9]

/-- The measurement carried by `sampleFrame`. -/
def sampleData : DATA :=
  { PM_SP_UG_1_0 := 1, PM_SP_UG_2_5 := 2, PM_SP_UG_10_0 := 3
    PM_AE_UG_1_0 := 4, PM_AE_UG_2_5 := 5, PM_AE_UG_10_0 := 6
    PM_TOTALPARTICLES_0_3 := 7, PM_TOTALPARTICLES_0_5 := 8, PM_TOTALPARTICLES_1_0 := 9
    PM_TOTALPARTICLES_2_5 := 10, PM_TOTALPARTICLES_5_0 := 11, PM_TOTALPARTICLES_10_0 := 12 }

/-- A record whose 12 fields are all zero. -/
def zeroData : DATA :=
  { PM_SP_UG_1_0 := 0, PM_SP_UG_2_5 := 0, PM_SP_UG_10_0 := 0
    PM_AE_UG_1_0 := 0, PM_AE_UG_2_5 := 0, PM_AE_UG_10_0 := 0
    PM_TOTALPARTICLES_0_3 := 0, PM_TOTALPARTICLES_0_5 := 0, PM_TOTALPARTICLES_1_0 := 0
    PM_TOTALPARTICLES_2_5 := 0, PM_TOTALPARTICLES_5_0 := 0, PM_TOTALPARTICLES_10_0 := 0 }

/-- A freshly constructed driver on a stream with the pending bytes `rx`. -/
def driverOn (rx : List Byte) : PMS := PMS.new { rx := rx, tx := [] } STATUS.STATUS_OK

/-- The measurement a frame at the head of `s` carries: the big-endian values of the
byte pairs (4,5), (6,7), ..., (26,27), in the documented field order. -/
def decodeFrame (s : List Byte) : DATA :=
  { PM_SP_UG_1_0 := be16 (byteAt s 4) (byteAt s 5)
    PM_SP_UG_2_5 := be16 (byteAt s 6) (byteAt s 7)
    PM_SP_UG_10_0 := be16 (byteAt s 8) (byteAt s 9)
    PM_AE_UG_1_0 := be16 (byteAt s 10) (byteAt s 11)
    PM_AE_UG_2_5 := be16 (byteAt s 12) (byteAt s 13)
    PM_AE_UG_10_0 := be16 (byteAt s 14) (byteAt s 15)
    PM_TOTALPARTICLES_0_3 := be16 (byteAt s 16) (byteAt s 17)
    PM_TOTALPARTICLES_0_5 := be16 (byteAt s 18) (byteAt s 19)
    PM_TOTALPARTICLES_1_0 := be16 (byteAt s 20) (byteAt s 21)
    PM_TOTALPARTICLES_2_5 := be16 (byteAt s 22) (byteAt s 23)
    PM_TOTALPARTICLES_5_0 := be16 (byteAt s 24) (byteAt s 25)
    PM_TOTALPARTICLES_10_0 := be16 (byteAt s 26) (byteAt s 27) }

/-- A 32-byte sequence that does not start with the sync marker and whose checksum
word (1) differs from the sum of its bytes 0..29 (0): 31 zero bytes, then 0x01. -/
def noSyncFrame : List Byte := List.replicate 31 0 ++ [0x01]

/-- A copy of `sampleFrame` with a wrong checksum word (0x00FA instead of 0x00F9). -/
def badFrame : List Byte :=
  [0x42, 0x4D, 0x00, 0x1C, 0, 1, 0, 2, 0, 3, 0, 4, 0, 5, 0, 6, 0, 7, 0, 8, 0, 9, 0, 10,
   0, 11, 0, 12, 0, 0, 0x00, 0xFA]

/-- The driver and the caller-owned record after `k` successive calls of `read` during
which no byte arrives on the stream. -/
def readRepeat : Nat → PMS → DATA → PMS × DATA
  | 0, p, data => (p, data)
  | k + 1, p, data => readRepeat k (p.read data).1 (p.read data).2.1

/-- The bytes `more` arrive on the input side of the stream of the driver. -/
def arrive (p : PMS) (more : List Byte) : PMS :=
  { p with _stream := { p._stream with rx := p._stream.rx ++ more } }

/-! ## `aqi.h`

The C type `float` is IEEE 754 binary32. A finite `float` value is represented by the
rational number it denotes, and every arithmetic operation of the source is the exact
rational operation followed by rounding to the nearest binary32 number, ties to even
(the default rounding mode; the expression is evaluated in `float` precision, as on the
ESP8266 target, which has no wider floating-point format for intermediate results).
All magnitudes that occur in `derivedAQI25` are far below the overflow threshold of
binary32, so infinities and NaN do not arise. -/

/-- Two to the power `e`, as a rational number. -/
def pow2 (e : Int) : ℚ :=
  if 0 ≤ e then ((2 ^ e.toNat : Nat) : ℚ) else 1 / ((2 ^ (-e).toNat : Nat) : ℚ)

/-- The position of the leading binary digit of `n` (`0` for `n < 2`), found with at
most `fuel` halvings. -/
def log2Fuel : Nat → Nat → Nat
  | 0, _ => 0
  | fuel + 1, n => if n < 2 then 0 else log2Fuel fuel (n / 2) + 1

/-- The position of the leading binary digit of `n`; `n` halvings always suffice. -/
def log2 (n : Nat) : Nat := log2Fuel n n

/-- The binary exponent of a rational `q ≠ 0`: the integer `e` with
`2 ^ e ≤ |q| < 2 ^ (e + 1)`. The difference of the digit positions of numerator and
denominator is either `e` or `e + 1`. -/
def ilog2 (q : ℚ) : Int :=
  let e : Int := (log2 q.num.natAbs : Int) - (log2 q.den : Int)
  if pow2 e ≤ |q| then e else e - 1

/-- Rounding to the nearest integer, ties to the even one. -/
def roundHalfEven (q : ℚ) : Int :=
  let f := ⌊q⌋
  let r := q - f
  if r < 1 / 2 then f
  else if 1 / 2 < r then f + 1
  else if f % 2 = 0 then f else f + 1

/-- Rounding of `q` to the nearest binary floating-point number with a significand of
`prec` bits and least exponent `emin` (the exponent of the last significand bit of the
subnormal numbers), ties to even; overflow to infinity is not modelled. -/
def roundBinary (prec : Nat) (emin : Int) (q : ℚ) : ℚ :=
  if q = 0 then 0
  else
    let e := max (ilog2 q - ((prec - 1 : Nat) : Int)) emin
    (roundHalfEven (q / pow2 e) : ℚ) * pow2 e

/-- Rounding to IEEE 754 binary64, the C type `double`. -/
def f64 (q : ℚ) : ℚ := roundBinary 53 (-1074) q

/-- Rounding to IEEE 754 binary32, the C type `float`. -/
def f32 (q : ℚ) : ℚ := roundBinary 24 (-149) q

/-- The value of a `float` member initialised from a decimal literal without suffix
such as `12.1`: the literal is a `double` constant, which is then converted to `float`. -/
def floatLit (q : ℚ) : ℚ := f32 (f64 q)

/-- The conversion of a `uint16_t` to `float`; it is exact. -/
def floatOfU16 (n : Nat) : ℚ := f32 (n : ℚ)

/-- The row type of `AQITable25`, the anonymous struct of `aqi.h`: `float pMin`,
`float pRange`, `uint16_t aqMin`, `uint16_t aqRange`. -/
structure AQIRow where
  pMin : ℚ
  pRange : ℚ
  aqMin : Nat
  aqRange : Nat
deriving DecidableEq

/-- The constant table `AQITable25` of `aqi.h`. -/
def AQITable25 : List AQIRow :=
  [ { pMin := floatLit 0, pRange := floatLit 12, aqMin := 0, aqRange := 50 },
    { pMin := floatLit (121 / 10), pRange := floatLit (234 / 10), aqMin := 51, aqRange := 49 },
    { pMin := floatLit (355 / 10), pRange := floatLit (243 / 10), aqMin := 101, aqRange := 49 },
    { pMin := floatLit (555 / 10), pRange := floatLit (849 / 10), aqMin := 151, aqRange := 49 },
    { pMin := floatLit (1505 / 10), pRange := floatLit (999 / 10), aqMin := 201,
      aqRange := 99 },
    { pMin := floatLit (2505 / 10), pRange := floatLit (999 / 10), aqMin := 301,
      aqRange := 99 },
    { pMin := floatLit (3505 / 10), pRange := floatLit (2499 / 10), aqMin := 401,
      aqRange := 99 },
    { pMin := floatLit (5005 / 10), pRange := floatLit (999999 / 10), aqMin := 501,
      aqRange := 498 } ]

/-- The constant `AQITableLength25 = sizeof(AQITable25)/sizeof(AQITable25[0])`. -/
def AQITableLength25 : Nat := AQITable25.length

/-- The scan loop of `derivedAQI25`,
`for (i = 0; i < AQITableLength25; i++) { if (reading < AQITable25[i].pMin) break; }`,
started at index `i` with the rows from `i` on; the result is the value of `i` when the
loop is left. -/
def scanFrom (reading : ℚ) : List AQIRow → Nat → Nat
  | [], i => i
  | row :: rows, i => if reading < row.pMin then i else scanFrom reading rows (i + 1)

/-- The value of `int i` in `derivedAQI25` after the scan loop and the line `i--;`. -/
def rowIndex (reading : Nat) : Int :=
  (scanFrom (floatOfU16 reading) AQITable25 0 : Int) - 1

/-- The conversion `(uint16_t)aqi` of a `float`: the fractional part is discarded
(truncation toward zero); the behaviour is undefined, here `none`, when the truncated
value is not a `uint16_t` value. -/
def truncToU16 (q : ℚ) : Option Nat :=
  let t : Int := if 0 ≤ q then ⌊q⌋ else ⌈q⌉
  if 0 ≤ t ∧ t < 65536 then some t.toNat else none

/-- Function `derivedAQI25` of `aqi.h`, for a `uint16_t reading`. The result is `none`
where the C function has undefined behaviour: an index outside the table, or a `float`
result that does not fit `uint16_t`. -/
def derivedAQI25 (reading : Nat) : Option Nat :=
  let i := rowIndex reading
  if i < 0 then none
  else
    match AQITable25.get? i.toNat with
    | none => none
    | some row =>
      let aqi :=
        f32 (f32 (f32 (f32 (floatOfU16 reading - row.pMin) * floatOfU16 row.aqRange)
          / row.pRange) + floatOfU16 row.aqMin)
      truncToU16 aqi

/-- One step in the life of a driver: a call of one of its public member functions, or
the arrival of further bytes on the input side of its stream between two calls. A
`readUntil` call carries the clock it observes (`millis k` is the value of the `k`-th
call of `millis()` during that call), the fuel that bounds its loop, and its timeout. -/
inductive Op where
  | sleep
  | wakeUp
  | activeMode
  | passiveMode
  | requestRead
  | read
  | readUntil (millis : Nat → Nat) (fuel : Nat) (timeout : Nat)
  | arrive (more : List Byte)

/-- The effect of one step on the driver and on the caller-owned output record; `none`
when a `readUntil` call has not returned within its fuel. -/
def Op.apply : Op → PMS × DATA → Option (PMS × DATA)
  | Op.sleep, s => some (s.1.sleep, s.2)
  | Op.wakeUp, s => some (s.1.wakeUp, s.2)
  | Op.activeMode, s => some (s.1.activeMode, s.2)
  | Op.passiveMode, s => some (s.1.passiveMode, s.2)
  | Op.requestRead, s => some (s.1.requestRead, s.2)
  | Op.read, s => some ((s.1.read s.2).1, (s.1.read s.2).2.1)
  | Op.readUntil millis fuel timeout, s =>
    match PMS.readUntil millis fuel s.1 s.2 timeout with
    | none => none
    | some r => some (r.1, r.2.1)
  | Op.arrive more, s => some (AQS.arrive s.1 more, s.2)

/-- The effect of a finite sequence of steps, first step first. -/
def runOps : List Op → PMS × DATA → Option (PMS × DATA)
  | [], s => some s
  | op :: ops, s =>
    match op.apply s with
    | none => none
    | some s1 => runOps ops s1

/-- The mode a sequence of steps leads to from mode `m`, by the rule of the
specification: `activeMode` and `passiveMode` set the mode, every other step keeps it. -/
def modeAfter : List Op → MODE → MODE
  | [], m => m
  | Op.activeMode :: ops, _ => modeAfter ops MODE.MODE_ACTIVE
  | Op.passiveMode :: ops, _ => modeAfter ops MODE.MODE_PASSIVE
  | _ :: ops, m => modeAfter ops m

/-- The state a fresh driver on an empty stream is in after `passiveMode` and one
fruitless poll: the passive-mode command has been written, status Waiting, mode Passive;
the output record is `zeroData`. -/
def passiveRunResult : PMS × DATA :=
  ({ _stream := { rx := [], tx := [0x42, 0x4D, 0xE1, 0x00, 0x00, 0x01, 0x70] },
     _status := STATUS.STATUS_WAITING, _mode := MODE.MODE_PASSIVE }, zeroData)

/-- The table `AQITable25` as it is written in `aqi.h`, with its decimal constants:
concentration floor, range width, AQI floor, AQI range width of every row. -/
def AQITable25Decimal : List (ℚ × ℚ × Nat × Nat) :=
  [ (0, 12, 0, 50),
    (121 / 10, 234 / 10, 51, 49),
    (355 / 10, 243 / 10, 101, 49),
    (555 / 10, 849 / 10, 151, 49),
    (1505 / 10, 999 / 10, 201, 99),
    (2505 / 10, 999 / 10, 301, 99),
    (3505 / 10, 2499 / 10, 401, 99),
    (5005 / 10, 999999 / 10, 501, 498) ]

/-- The band of a reading as the specification lists it: row 0 for 0..12, row 1 for
13..35, row 2 for 36..55, row 3 for 56..150, row 4 for 151..250, row 5 for 251..350,
row 6 for 351..500 and the final row from 501 on. -/
def bandOf (r : Nat) : Nat :=
  if r ≤ 12 then 0 else if r ≤ 35 then 1 else if r ≤ 55 then 2 else if r ≤ 150 then 3
  else if r ≤ 250 then 4 else if r ≤ 350 then 5 else if r ≤ 500 then 6 else 7

/-- The exact value of the interpolation formula of the specification for reading `r`:
`(r - floor) * aqRange / concRange + aqFloor` with the decimal constants of the row
`bandOf r`, in rational arithmetic. -/
def exactFormula (r : Nat) : ℚ :=
  match AQITable25Decimal.get? (bandOf r) with
  | none => 0
  | some row => ((r : ℚ) - row.1) * row.2.2.2 / row.2.1 + row.2.2.1

/-- The `float` evaluation of the interpolation formula in `derivedAQI25` for the
constants of table row `row`. -/
def floatFormula (row : AQIRow) (r : Nat) : ℚ :=
  f32 (f32 (f32 (f32 (floatOfU16 r - row.pMin) * floatOfU16 row.aqRange) / row.pRange)
    + floatOfU16 row.aqMin)

/-- The margin test for a reading `r` of the band whose decimal floor is `A10 / 10` and
whose decimal width is `B10 / 10`: the fractional part of the exact formula,
`((10 r - A10) * d mod B10) / B10`, is at least `1/4096` and less than `1 - 1/4096`. -/
def marginOK (A10 B10 d r : Nat) : Bool :=
  Nat.ble B10 (4096 * ((10 * r - A10) * d % B10)) &&
    Nat.blt (4096 * ((10 * r - A10) * d % B10) + B10) (4096 * B10)

/-- The readings that fail the margin test: there the exact formula is an integer or
very close to one, and `derivedAQI25` is evaluated directly. -/
def aqiExceptions : List Nat :=
  [0, 6, 12, 206, 306, 4115, 5119, 6123, 7127, 8131, 9135, 10139, 17368, 18372, 19376,
   20380, 21384, 22388, 23392, 30621, 31625, 32629, 33633, 34637, 35641, 36645, 44878,
   45882, 46886, 47890, 48894, 49898, 58131, 59135, 60139, 61143, 62147, 63151]

/-- The margin test, or membership in `aqiExceptions`, for the `n` readings from `r` on. -/
def checkRange (A10 B10 d : Nat) : Nat → Nat → Bool
  | _, 0 => true
  | r, n + 1 =>
    (marginOK A10 B10 d r || aqiExceptions.contains r) && checkRange A10 B10 d (r + 1) n

/-- The only reading of the last band whose remainder `(4980 r - 2492490) mod 999999`
can be `s`: as `173293 * 4980` is 3 modulo 999999, that reading is a third of
`173293 * (s + 2492490) mod 999999`. The test accepts `s` when this is no reading of
the band or a member of `aqiExceptions`. -/
def residueOK (s : Nat) : Bool :=
  !(Nat.beq (173293 * (s + 2492490) % 999999 % 3) 0 &&
      Nat.ble 501 (173293 * (s + 2492490) % 999999 / 3) &&
      Nat.ble (173293 * (s + 2492490) % 999999 / 3) 65535) ||
    aqiExceptions.contains (173293 * (s + 2492490) % 999999 / 3)

/-- The test `residueOK` for the `n` remainders from `s` on. -/
def checkResidues : Nat → Nat → Bool
  | _, 0 => true
  | s, n + 1 => residueOK s && checkResidues (s + 1) n

/-! ## Auxiliary lemmas on the poll cycle -/

theorem foldl_sum_take (buffer : List Byte) (n : Nat) (h : n ≤ buffer.length) :
    (List.range n).foldl (fun sum i => (sum + (buffer.getD i 0).val) % 65536) 0
      = ((buffer.take n).map (fun b => b.val)).sum % 65536 := by
  induction n with
  | zero => simp
  | succ k ih =>
    have hk : k < buffer.length := by omega
    rw [List.range_succ, List.foldl_append, ih (by omega), List.take_succ]
    simp only [List.foldl_cons, List.foldl_nil, List.map_append, List.sum_append,
      List.getD_eq_getElem?_getD, List.getElem?_eq_getElem hk, Option.getD_some,
      Option.toList_some, List.map_cons, List.map_nil, List.sum_cons, List.sum_nil]
    omega

theorem checksumLoop_take (rx : List Byte) (h : 32 ≤ rx.length) :
    checksumLoop (rx.take 32) = frameSum rx := by
  unfold checksumLoop frameSum
  rw [foldl_sum_take _ 30 (by simp; omega), List.take_take]
  simp

theorem getD_take_lt (rx : List Byte) (i n : Nat) (h : i < n) :
    (rx.take n).getD i 0 = rx.getD i 0 := by
  simp [List.getD_eq_getElem?_getD, List.getElem?_take, h]

theorem wordAt_take (rx : List Byte) (i : Nat) (h : i < 15) :
    wordAt (rx.take 32) i = be16 (byteAt rx (2 + i * 2)) (byteAt rx (2 + i * 2 + 1)) := by
  unfold wordAt be16 byteAt
  rw [getD_take_lt rx _ 32 (by omega), getD_take_lt rx _ 32 (by omega), Nat.shiftLeft_eq]
  have h1 := (rx.getD (2 + i * 2 + 1) 0).isLt
  have h2 := (rx.getD (2 + i * 2) 0).isLt
  simp only []
  omega

theorem wordLoop_getD (buffer : List Byte) (k : Nat) (h : k < 15) :
    (wordLoop buffer).getD k 0 = wordAt buffer k := by
  unfold wordLoop
  simp [List.getD_eq_getElem?_getD, List.getElem?_map, List.getElem?_range h]

theorem peek_cons (s : Stream) (b : Byte) (rest : List Byte) (h : s.rx = b :: rest) :
    (s.peek = 0x42) ↔ b = 0x42 := by
  unfold Stream.peek
  rw [h]
  constructor
  · intro hb
    apply Fin.ext
    have : (b.val : Int) = 66 := hb
    show b.val = 66
    omega
  · intro hb
    subst hb
    rfl

theorem loop_nil (p : PMS) (data : DATA) (h : p._stream.rx = []) :
    p.loop data = ({ p with _status := STATUS.STATUS_WAITING }, data) := by
  simp [PMS.loop, Stream.available, h]

theorem loop_resync (p : PMS) (data : DATA) (b : Byte) (rest : List Byte)
    (h : p._stream.rx = b :: rest) (hb : b ≠ 0x42) :
    p.loop data = ({ p with _status := STATUS.STATUS_WAITING,
                            _stream := { p._stream with rx := rest } }, data) := by
  have hp : ¬ p._stream.peek = 0x42 := fun hh => hb ((peek_cons _ b rest h).1 hh)
  simp [PMS.loop, Stream.available, h, hp, Stream.read]

theorem loop_short (p : PMS) (data : DATA) (rest : List Byte)
    (h : p._stream.rx = 0x42 :: rest) (hl : p._stream.rx.length < 32) :
    p.loop data = ({ p with _status := STATUS.STATUS_WAITING }, data) := by
  have hp : p._stream.peek = 0x42 := (peek_cons _ _ rest h).2 rfl
  have hl2 : rest.length + 1 < 32 := by simpa [h] using hl
  simp [PMS.loop, Stream.available, h, hp, hl2]

theorem toSdata_checksum (rx : List Byte) :
    (toSdata (wordLoop (rx.take 32))).checksum = be16 (byteAt rx 30) (byteAt rx 31) := by
  simp only [toSdata]
  rw [wordLoop_getD _ 14 (by omega), wordAt_take rx 14 (by omega)]

theorem loop_bad (p : PMS) (data : DATA) (rest : List Byte)
    (h : p._stream.rx = 0x42 :: rest) (hl : 32 ≤ p._stream.rx.length)
    (hc : ¬ ChecksumOk p._stream.rx) :
    p.loop data = ({ p with _status := STATUS.STATUS_WAITING,
                            _stream := { p._stream with rx := p._stream.rx.drop 32 } },
                   data) := by
  have hp : p._stream.peek = 0x42 := (peek_cons _ _ rest h).2 rfl
  have hl2 : ¬ p._stream.available < 32 := by simp [Stream.available]; omega
  have ha : p._stream.available ≠ 0 := by simp [Stream.available, h]
  have hsum : checksumLoop (p._stream.rx.take 32)
      ≠ (toSdata (wordLoop (p._stream.rx.take 32))).checksum := by
    rw [checksumLoop_take _ hl, toSdata_checksum]
    exact hc
  simp only [PMS.loop, hp, hl2, Stream.readBytes]
  simp [hsum, ha]

theorem loop_good (p : PMS) (data : DATA) (rest : List Byte)
    (h : p._stream.rx = 0x42 :: rest) (hl : 32 ≤ p._stream.rx.length)
    (hc : ChecksumOk p._stream.rx) :
    p.loop data = ({ p with _status := STATUS.STATUS_OK,
                            _stream := { p._stream with rx := p._stream.rx.drop 32 } },
                   decodeFrame p._stream.rx) := by
  have hp : p._stream.peek = 0x42 := (peek_cons _ _ rest h).2 rfl
  have hl2 : ¬ p._stream.available < 32 := by simp [Stream.available]; omega
  have ha : p._stream.available ≠ 0 := by simp [Stream.available, h]
  have hsum : checksumLoop (p._stream.rx.take 32)
      = (toSdata (wordLoop (p._stream.rx.take 32))).checksum := by
    rw [checksumLoop_take _ hl, toSdata_checksum]
    exact hc
  simp only [PMS.loop, ha, hp, hl2, Stream.readBytes]
  simp only [hsum, ne_eq, not_true_eq_false, ite_false, not_false_eq_true, ite_true,
    if_false, if_true]
  simp only [toSdata, decodeFrame]
  rw [wordLoop_getD _ 1 (by omega), wordLoop_getD _ 2 (by omega), wordLoop_getD _ 3 (by omega),
    wordLoop_getD _ 4 (by omega), wordLoop_getD _ 5 (by omega), wordLoop_getD _ 6 (by omega),
    wordLoop_getD _ 7 (by omega), wordLoop_getD _ 8 (by omega), wordLoop_getD _ 9 (by omega),
    wordLoop_getD _ 10 (by omega), wordLoop_getD _ 11 (by omega),
    wordLoop_getD _ 12 (by omega)]
  rw [wordAt_take _ 1 (by omega), wordAt_take _ 2 (by omega), wordAt_take _ 3 (by omega),
    wordAt_take _ 4 (by omega), wordAt_take _ 5 (by omega), wordAt_take _ 6 (by omega),
    wordAt_take _ 7 (by omega), wordAt_take _ 8 (by omega), wordAt_take _ 9 (by omega),
    wordAt_take _ 10 (by omega), wordAt_take _ 11 (by omega), wordAt_take _ 12 (by omega)]
  rw [if_pos ha]

/-! ## The five outcomes of one `read` -/

theorem read_nil (p : PMS) (data : DATA) (h : p._stream.rx = []) :
    p.read data = ({ p with _status := STATUS.STATUS_WAITING }, data, false) := by
  simp [PMS.read, loop_nil p data h]

theorem read_resync (p : PMS) (data : DATA) (b : Byte) (rest : List Byte)
    (h : p._stream.rx = b :: rest) (hb : b ≠ 0x42) :
    p.read data = ({ p with _status := STATUS.STATUS_WAITING,
                            _stream := { p._stream with rx := rest } }, data, false) := by
  simp [PMS.read, loop_resync p data b rest h hb]

theorem read_short (p : PMS) (data : DATA) (rest : List Byte)
    (h : p._stream.rx = 0x42 :: rest) (hl : p._stream.rx.length < 32) :
    p.read data = ({ p with _status := STATUS.STATUS_WAITING }, data, false) := by
  simp [PMS.read, loop_short p data rest h hl]

theorem read_bad (p : PMS) (data : DATA) (rest : List Byte)
    (h : p._stream.rx = 0x42 :: rest) (hl : 32 ≤ p._stream.rx.length)
    (hc : ¬ ChecksumOk p._stream.rx) :
    p.read data = ({ p with _status := STATUS.STATUS_WAITING,
                            _stream := { p._stream with rx := p._stream.rx.drop 32 } },
                   data, false) := by
  simp [PMS.read, loop_bad p data rest h hl hc]

theorem read_good (p : PMS) (data : DATA) (rest : List Byte)
    (h : p._stream.rx = 0x42 :: rest) (hl : 32 ≤ p._stream.rx.length)
    (hc : ChecksumOk p._stream.rx) :
    p.read data = ({ p with _status := STATUS.STATUS_OK,
                            _stream := { p._stream with rx := p._stream.rx.drop 32 } },
                   decodeFrame p._stream.rx, true) := by
  simp [PMS.read, loop_good p data rest h hl hc]

/-- The outcome of `read` is one of the five above, selected by the pending bytes. -/
theorem read_cases (p : PMS) (data : DATA) :
    (p._stream.rx = [] ∧
      p.read data = ({ p with _status := STATUS.STATUS_WAITING }, data, false)) ∨
    (∃ b rest, p._stream.rx = b :: rest ∧ b ≠ 0x42 ∧
      p.read data = ({ p with _status := STATUS.STATUS_WAITING,
                              _stream := { p._stream with rx := rest } }, data, false)) ∨
    (∃ rest, p._stream.rx = 0x42 :: rest ∧ p._stream.rx.length < 32 ∧
      p.read data = ({ p with _status := STATUS.STATUS_WAITING }, data, false)) ∨
    (∃ rest, p._stream.rx = 0x42 :: rest ∧ 32 ≤ p._stream.rx.length ∧
      ¬ ChecksumOk p._stream.rx ∧
      p.read data = ({ p with _status := STATUS.STATUS_WAITING,
                              _stream := { p._stream with rx := p._stream.rx.drop 32 } },
                     data, false)) ∨
    (∃ rest, p._stream.rx = 0x42 :: rest ∧ 32 ≤ p._stream.rx.length ∧
      ChecksumOk p._stream.rx ∧
      p.read data = ({ p with _status := STATUS.STATUS_OK,
                              _stream := { p._stream with rx := p._stream.rx.drop 32 } },
                     decodeFrame p._stream.rx, true)) := by
  cases hrx : p._stream.rx with
  | nil => exact Or.inl ⟨rfl, read_nil p data hrx⟩
  | cons b rest =>
    by_cases hb : b = 0x42
    · subst hb
      rw [← hrx]
      by_cases hl : p._stream.rx.length < 32
      · exact Or.inr (Or.inr (Or.inl ⟨rest, hrx, hl, read_short p data rest hrx hl⟩))
      · have hl2 : 32 ≤ p._stream.rx.length := by omega
        by_cases hc : ChecksumOk p._stream.rx
        · exact Or.inr (Or.inr (Or.inr (Or.inr
            ⟨rest, hrx, hl2, hc, read_good p data rest hrx hl2 hc⟩)))
        · exact Or.inr (Or.inr (Or.inr (Or.inl
            ⟨rest, hrx, hl2, hc, read_bad p data rest hrx hl2 hc⟩)))
    · exact Or.inr (Or.inl ⟨b, rest, rfl, hb, read_resync p data b rest hrx hb⟩)

/-! ## Claims on `read` -/

/-- C1: for every driver state (whatever the previous status) and every pending stream
content, `read` returns true if and only if at least 32 bytes are available, the first
available byte is 0x42, and the sum of bytes 0..29 (16-bit accumulator) equals the
big-endian 16-bit value formed from bytes 30 and 31; whenever it returns false the
status is Waiting. -/
theorem C1_read_true_iff (p : PMS) (data : DATA) :
    ((p.read data).2.2 = true ↔
      (32 ≤ p._stream.available ∧ p._stream.rx.head? = some 0x42 ∧
        frameSum p._stream.rx = be16 (byteAt p._stream.rx 30) (byteAt p._stream.rx 31))) ∧
    ((p.read data).2.2 = false → (p.read data).1._status = STATUS.STATUS_WAITING) := by
  rcases read_cases p data with ⟨hrx, hr⟩ | ⟨b, rest, hrx, hb, hr⟩ | ⟨rest, hrx, hl, hr⟩ |
    ⟨rest, hrx, hl, hc, hr⟩ | ⟨rest, hrx, hl, hc, hr⟩
  · simp [hr, hrx, Stream.available]
  · rw [hr]
    simp only [Stream.available, hrx, List.head?_cons, Option.some.injEq]
    simp [hb]
  · rw [hr]
    simp only [Stream.available]
    simp
    intro h32
    omega
  · rw [hr]
    simp only [Stream.available]
    simp
    intro _ _
    exact hc
  · rw [hr]
    simp only [Stream.available]
    simp [hl]
    exact ⟨by simp [hrx], hc⟩

theorem byteAt_append_left (f rest : List Byte) (i : Nat) (h : i < f.length) :
    byteAt (f ++ rest) i = byteAt f i := by
  unfold byteAt
  simp [List.getD_eq_getElem?_getD, List.getElem?_append_left h]

theorem frameSum_append_left (f rest : List Byte) (h : 30 ≤ f.length) :
    frameSum (f ++ rest) = frameSum f := by
  unfold frameSum
  rw [List.take_append_of_le_length h]

theorem checksumOk_append_left (f rest : List Byte) (h : f.length = 32) :
    ChecksumOk (f ++ rest) ↔ ChecksumOk f := by
  unfold ChecksumOk
  rw [frameSum_append_left f rest (by omega), byteAt_append_left f rest 30 (by omega),
    byteAt_append_left f rest 31 (by omega)]

theorem decodeFrame_append_left (f rest : List Byte) (h : f.length = 32) :
    decodeFrame (f ++ rest) = decodeFrame f := by
  unfold decodeFrame
  simp only [byteAt_append_left f rest _ (show 4 < f.length by omega),
    byteAt_append_left f rest _ (show 5 < f.length by omega),
    byteAt_append_left f rest _ (show 6 < f.length by omega),
    byteAt_append_left f rest _ (show 7 < f.length by omega),
    byteAt_append_left f rest _ (show 8 < f.length by omega),
    byteAt_append_left f rest _ (show 9 < f.length by omega),
    byteAt_append_left f rest _ (show 10 < f.length by omega),
    byteAt_append_left f rest _ (show 11 < f.length by omega),
    byteAt_append_left f rest _ (show 12 < f.length by omega),
    byteAt_append_left f rest _ (show 13 < f.length by omega),
    byteAt_append_left f rest _ (show 14 < f.length by omega),
    byteAt_append_left f rest _ (show 15 < f.length by omega),
    byteAt_append_left f rest _ (show 16 < f.length by omega),
    byteAt_append_left f rest _ (show 17 < f.length by omega),
    byteAt_append_left f rest _ (show 18 < f.length by omega),
    byteAt_append_left f rest _ (show 19 < f.length by omega),
    byteAt_append_left f rest _ (show 20 < f.length by omega),
    byteAt_append_left f rest _ (show 21 < f.length by omega),
    byteAt_append_left f rest _ (show 22 < f.length by omega),
    byteAt_append_left f rest _ (show 23 < f.length by omega),
    byteAt_append_left f rest _ (show 24 < f.length by omega),
    byteAt_append_left f rest _ (show 25 < f.length by omega),
    byteAt_append_left f rest _ (show 26 < f.length by omega),
    byteAt_append_left f rest _ (show 27 < f.length by omega)]

theorem frame_head (f rest : List Byte) (h : 0 < f.length) (h0 : byteAt f 0 = 0x42) :
    ∃ t, f ++ rest = 0x42 :: t := by
  cases f with
  | nil => simp at h
  | cons b t =>
    refine ⟨t ++ rest, ?_⟩
    have : b = 0x42 := by simpa [byteAt] using h0
    rw [this]
    rfl

/-- Reading a checksum-valid frame `f` that stands at the head of the stream. -/
theorem read_frame (p : PMS) (data : DATA) (f rest : List Byte)
    (hrx : p._stream.rx = f ++ rest) (hlen : f.length = 32)
    (h0 : byteAt f 0 = 0x42) (hc : ChecksumOk f) :
    p.read data = ({ p with _status := STATUS.STATUS_OK,
                            _stream := { p._stream with rx := rest } },
                   decodeFrame f, true) := by
  obtain ⟨t, ht⟩ := frame_head f rest (by omega) h0
  have hl : 32 ≤ p._stream.rx.length := by rw [hrx, List.length_append]; omega
  have hc2 : ChecksumOk p._stream.rx := by
    rw [hrx]; exact (checksumOk_append_left f rest hlen).2 hc
  rw [read_good p data t (hrx.trans ht) hl hc2, hrx, decodeFrame_append_left f rest hlen,
    List.drop_append_of_le_length (by omega), ← hlen, List.drop_length]
  rfl

/-- C2: for every 32-byte frame `f` at the head of the stream whose byte 0 is 0x42 and
whose checksum matches, `read` returns true, sets status Ok, and the 12 output fields are,
in the documented order, the big-endian values of the byte pairs (4,5), ..., (26,27);
the frame-length word (bytes 2,3) and the reserved word (bytes 28,29) influence no output
field: any other valid frame with the same bytes 4..27, read by any driver into any
record, gives the same 12 fields. -/
theorem C2_read_decodes_frame (p : PMS) (data : DATA) (f rest : List Byte)
    (hrx : p._stream.rx = f ++ rest) (hlen : f.length = 32)
    (h0 : byteAt f 0 = 0x42) (hc : ChecksumOk f) :
    (p.read data).2.2 = true ∧
    (p.read data).1._status = STATUS.STATUS_OK ∧
    (p.read data).2.1 =
      { PM_SP_UG_1_0 := be16 (byteAt f 4) (byteAt f 5)
        PM_SP_UG_2_5 := be16 (byteAt f 6) (byteAt f 7)
        PM_SP_UG_10_0 := be16 (byteAt f 8) (byteAt f 9)
        PM_AE_UG_1_0 := be16 (byteAt f 10) (byteAt f 11)
        PM_AE_UG_2_5 := be16 (byteAt f 12) (byteAt f 13)
        PM_AE_UG_10_0 := be16 (byteAt f 14) (byteAt f 15)
        PM_TOTALPARTICLES_0_3 := be16 (byteAt f 16) (byteAt f 17)
        PM_TOTALPARTICLES_0_5 := be16 (byteAt f 18) (byteAt f 19)
        PM_TOTALPARTICLES_1_0 := be16 (byteAt f 20) (byteAt f 21)
        PM_TOTALPARTICLES_2_5 := be16 (byteAt f 22) (byteAt f 23)
        PM_TOTALPARTICLES_5_0 := be16 (byteAt f 24) (byteAt f 25)
        PM_TOTALPARTICLES_10_0 := be16 (byteAt f 26) (byteAt f 27) } ∧
    (∀ (q : PMS) (data2 : DATA) (g rest2 : List Byte),
      q._stream.rx = g ++ rest2 → g.length = 32 → byteAt g 0 = 0x42 → ChecksumOk g →
      (∀ i, 4 ≤ i → i < 28 → byteAt g i = byteAt f i) →
      (q.read data2).2.1 = (p.read data).2.1) := by
  rw [read_frame p data f rest hrx hlen h0 hc]
  refine ⟨rfl, rfl, rfl, ?_⟩
  intro q data2 g rest2 hq hg hg0 hgc hsame
  rw [read_frame q data2 g rest2 hq hg hg0 hgc]
  show decodeFrame g = decodeFrame f
  unfold decodeFrame
  simp only [hsame 4 (by omega) (by omega), hsame 5 (by omega) (by omega),
    hsame 6 (by omega) (by omega), hsame 7 (by omega) (by omega),
    hsame 8 (by omega) (by omega), hsame 9 (by omega) (by omega),
    hsame 10 (by omega) (by omega), hsame 11 (by omega) (by omega),
    hsame 12 (by omega) (by omega), hsame 13 (by omega) (by omega),
    hsame 14 (by omega) (by omega), hsame 15 (by omega) (by omega),
    hsame 16 (by omega) (by omega), hsame 17 (by omega) (by omega),
    hsame 18 (by omega) (by omega), hsame 19 (by omega) (by omega),
    hsame 20 (by omega) (by omega), hsame 21 (by omega) (by omega),
    hsame 22 (by omega) (by omega), hsame 23 (by omega) (by omega),
    hsame 24 (by omega) (by omega), hsame 25 (by omega) (by omega),
    hsame 26 (by omega) (by omega), hsame 27 (by omega) (by omega)]

/-- C2 at a concrete input: `sampleFrame` followed by two more bytes. -/
theorem C2_read_decodes_frame_witness :
    (driverOn (sampleFrame ++ [0x42, 0x07]))._stream.rx = sampleFrame ++ [0x42, 0x07] ∧
    sampleFrame.length = 32 ∧ byteAt sampleFrame 0 = 0x42 ∧ ChecksumOk sampleFrame ∧
    ((driverOn (sampleFrame ++ [0x42, 0x07])).read zeroData).2.2 = true ∧
    ((driverOn (sampleFrame ++ [0x42, 0x07])).read zeroData).2.1 = sampleData :=
  ⟨rfl, by decide, by decide, by decide,
    (C2_read_decodes_frame (driverOn (sampleFrame ++ [0x42, 0x07])) zeroData sampleFrame
      [0x42, 0x07] rfl (by decide) (by decide) (by decide)).1,
    (C2_read_decodes_frame (driverOn (sampleFrame ++ [0x42, 0x07])) zeroData sampleFrame
      [0x42, 0x07] rfl (by decide) (by decide) (by decide)).2.2.1.trans (by decide)⟩

/-! ## Round trip -/

theorem be16_toByte (w : Nat) (h : w < 65536) : be16 (toByte (w / 256)) (toByte w) = w := by
  unfold be16 toByte
  simp only []
  omega

theorem encodeBody_length (second : Byte) (framelen : Nat) (m : DATA) (reserved : Nat) :
    (encodeBody second framelen m reserved).length = 30 := by
  simp [encodeBody, word16]

theorem encodeFrame_length (second : Byte) (framelen : Nat) (m : DATA) (reserved : Nat) :
    (encodeFrame second framelen m reserved).length = 32 := by
  simp [encodeFrame, encodeBody_length, word16]

theorem encodeFrame_sync (second : Byte) (framelen : Nat) (m : DATA) (reserved : Nat) :
    byteAt (encodeFrame second framelen m reserved) 0 = 0x42 := by
  simp [encodeFrame, encodeBody, byteAt]

theorem encodeFrame_byteAt30 (second : Byte) (framelen : Nat) (m : DATA) (reserved : Nat) :
    byteAt (encodeFrame second framelen m reserved) 30 = 
      toByte (((encodeBody second framelen m reserved).map (fun b => b.val)).sum
          % 65536 / 256) := by
  unfold encodeFrame byteAt
  simp only []
  rw [List.getD_eq_getElem?_getD, List.getElem?_append_right (by rw [encodeBody_length])]
  simp [encodeBody_length, word16]

theorem encodeFrame_byteAt31 (second : Byte) (framelen : Nat) (m : DATA) (reserved : Nat) :
    byteAt (encodeFrame second framelen m reserved) 31 = 
      toByte (((encodeBody second framelen m reserved).map (fun b => b.val)).sum
          % 65536) := by
  unfold encodeFrame byteAt
  simp only []
  rw [List.getD_eq_getElem?_getD, List.getElem?_append_right (by rw [encodeBody_length]; omega)]
  simp [encodeBody_length, word16]

theorem encodeFrame_checksumOk (second : Byte) (framelen : Nat) (m : DATA) (reserved : Nat) :
    ChecksumOk (encodeFrame second framelen m reserved) := by
  have hlen := encodeBody_length second framelen m reserved
  have hsum : frameSum (encodeFrame second framelen m reserved)
      = ((encodeBody second framelen m reserved).map (fun b => b.val)).sum % 65536 := by
    unfold encodeFrame
    simp only []
    rw [frameSum_append_left _ _ (by omega)]
    unfold frameSum
    rw [List.take_of_length_le (by omega)]
  unfold ChecksumOk
  rw [hsum, encodeFrame_byteAt30, encodeFrame_byteAt31,
    be16_toByte _ (Nat.mod_lt _ (by decide))]

theorem decodeFrame_encodeFrame_raw (second : Byte) (framelen : Nat) (m : DATA) (reserved : Nat) :
    decodeFrame (encodeFrame second framelen m reserved) =
      { PM_SP_UG_1_0 := be16 (toByte (m.PM_SP_UG_1_0 / 256)) (toByte m.PM_SP_UG_1_0)
        PM_SP_UG_2_5 := be16 (toByte (m.PM_SP_UG_2_5 / 256)) (toByte m.PM_SP_UG_2_5)
        PM_SP_UG_10_0 := be16 (toByte (m.PM_SP_UG_10_0 / 256)) (toByte m.PM_SP_UG_10_0)
        PM_AE_UG_1_0 := be16 (toByte (m.PM_AE_UG_1_0 / 256)) (toByte m.PM_AE_UG_1_0)
        PM_AE_UG_2_5 := be16 (toByte (m.PM_AE_UG_2_5 / 256)) (toByte m.PM_AE_UG_2_5)
        PM_AE_UG_10_0 := be16 (toByte (m.PM_AE_UG_10_0 / 256)) (toByte m.PM_AE_UG_10_0)
        PM_TOTALPARTICLES_0_3 :=
          be16 (toByte (m.PM_TOTALPARTICLES_0_3 / 256)) (toByte m.PM_TOTALPARTICLES_0_3)
        PM_TOTALPARTICLES_0_5 :=
          be16 (toByte (m.PM_TOTALPARTICLES_0_5 / 256)) (toByte m.PM_TOTALPARTICLES_0_5)
        PM_TOTALPARTICLES_1_0 :=
          be16 (toByte (m.PM_TOTALPARTICLES_1_0 / 256)) (toByte m.PM_TOTALPARTICLES_1_0)
        PM_TOTALPARTICLES_2_5 :=
          be16 (toByte (m.PM_TOTALPARTICLES_2_5 / 256)) (toByte m.PM_TOTALPARTICLES_2_5)
        PM_TOTALPARTICLES_5_0 :=
          be16 (toByte (m.PM_TOTALPARTICLES_5_0 / 256)) (toByte m.PM_TOTALPARTICLES_5_0)
        PM_TOTALPARTICLES_10_0 :=
          be16 (toByte (m.PM_TOTALPARTICLES_10_0 / 256)) (toByte m.PM_TOTALPARTICLES_10_0) } := by
  simp [decodeFrame, encodeFrame, encodeBody, word16, byteAt]

theorem decodeFrame_encodeFrame (second : Byte) (framelen : Nat) (m : DATA) (reserved : Nat)
    (hm : m.IsU16) : decodeFrame (encodeFrame second framelen m reserved) = m := by
  obtain ⟨h1, h2, h3, h4, h5, h6, h7, h8, h9, h10, h11, h12⟩ := hm
  rw [decodeFrame_encodeFrame_raw, be16_toByte _ h1, be16_toByte _ h2, be16_toByte _ h3,
    be16_toByte _ h4, be16_toByte _ h5, be16_toByte _ h6, be16_toByte _ h7,
    be16_toByte _ h8, be16_toByte _ h9, be16_toByte _ h10, be16_toByte _ h11,
    be16_toByte _ h12]

/-- C3 (round trip): for every measurement `m` of 12 unsigned 16-bit fields and any
second byte, frame-length word and reserved word, encoding `m` as a 32-byte report
frame and calling `read` on a stream that holds that frame (followed by any further
bytes) returns true and leaves the output record equal to `m`; the frame is consumed. -/
theorem C3_encode_read_roundtrip (p : PMS) (data m : DATA) (second : Byte)
    (framelen reserved : Nat) (rest : List Byte) (hm : m.IsU16)
    (hrx : p._stream.rx = encodeFrame second framelen m reserved ++ rest) :
    (p.read data).2.2 = true ∧ (p.read data).2.1 = m ∧
    (p.read data).1._stream.rx = rest := by
  rw [read_frame p data _ rest hrx (encodeFrame_length second framelen m reserved)
    (encodeFrame_sync second framelen m reserved)
    (encodeFrame_checksumOk second framelen m reserved)]
  exact ⟨rfl, decodeFrame_encodeFrame second framelen m reserved hm, rfl⟩

/-- C3 at a concrete input: `sampleData` encoded with second byte 0x4D, length word 28
and reserved word 0 is `sampleFrame`, and reading it back gives `sampleData`. -/
theorem C3_encode_read_roundtrip_witness :
    sampleData.IsU16 ∧
    (driverOn sampleFrame)._stream.rx = encodeFrame 0x4D 28 sampleData 0 ++ [] ∧
    ((driverOn sampleFrame).read zeroData).2.2 = true ∧
    ((driverOn sampleFrame).read zeroData).2.1 = sampleData :=
  ⟨by decide, by decide,
    (C3_encode_read_roundtrip (driverOn sampleFrame) zeroData sampleData 0x4D 28 0 []
      (by decide) (by decide)).1,
    (C3_encode_read_roundtrip (driverOn sampleFrame) zeroData sampleData 0x4D 28 0 []
      (by decide) (by decide)).2.1⟩

/-- C4 (no partial update): for every stream content and every prior value of the
output record, if `read` returns false the record is exactly what it was before the
call; if `read` returns true then all 12 fields are written: the record is the decoded
frame, whatever it held before. -/
theorem C4_no_partial_update (p : PMS) (data : DATA) :
    ((p.read data).2.2 = false → (p.read data).2.1 = data) ∧
    ((p.read data).2.2 = true →
      (p.read data).2.1 = decodeFrame p._stream.rx ∧
      ∀ data2 : DATA, (p.read data2).2.1 = (p.read data).2.1) := by
  rcases read_cases p data with ⟨hrx, hr⟩ | ⟨b, rest, hrx, hb, hr⟩ | ⟨rest, hrx, hl, hr⟩ |
    ⟨rest, hrx, hl, hc, hr⟩ | ⟨rest, hrx, hl, hc, hr⟩
  · rw [hr]; simp
  · rw [hr]; simp
  · rw [hr]; simp
  · rw [hr]; simp
  · rw [hr]
    refine ⟨fun h => by simp at h, fun _ => ⟨rfl, fun data2 => ?_⟩⟩
    rw [read_good p data2 rest hrx hl hc]

/-- C5: for every pending byte sequence that does not begin with 0x42, one `read`
consumes exactly the head byte, returns false, and leaves every following byte in the
stream in its original order, however many bytes are available; nothing is written. -/
theorem C5_resync_one_byte (p : PMS) (data : DATA) (b : Byte) (rest : List Byte)
    (hrx : p._stream.rx = b :: rest) (hb : b ≠ 0x42) :
    (p.read data).2.2 = false ∧ (p.read data).1._stream.rx = rest ∧
    (p.read data).1._stream.available + 1 = p._stream.available ∧
    (p.read data).1._stream.tx = p._stream.tx := by
  rw [read_resync p data b rest hrx hb]
  simp [Stream.available, hrx]

/-- C5 at a concrete input: 0x4D followed by a whole valid frame. -/
theorem C5_resync_one_byte_witness :
    (driverOn (0x4D :: sampleFrame))._stream.rx = 0x4D :: sampleFrame ∧
    (0x4D : Byte) ≠ 0x42 ∧
    ((driverOn (0x4D :: sampleFrame)).read zeroData).2.2 = false ∧
    ((driverOn (0x4D :: sampleFrame)).read zeroData).1._stream.rx = sampleFrame :=
  ⟨rfl, by decide,
    (C5_resync_one_byte (driverOn (0x4D :: sampleFrame)) zeroData 0x4D sampleFrame rfl
      (by decide)).1,
    (C5_resync_one_byte (driverOn (0x4D :: sampleFrame)) zeroData 0x4D sampleFrame rfl
      (by decide)).2.1⟩

/-- C6, as stated, fails: `noSyncFrame` is a 32-byte sequence whose bytes 0..29 sum to
a value different from its checksum word, yet `read` consumes one byte only (31 bytes
stay pending), because the head byte is not 0x42. -/
theorem C6_counterexample :
    noSyncFrame.length = 32 ∧
    frameSum noSyncFrame ≠ be16 (byteAt noSyncFrame 30) (byteAt noSyncFrame 31) ∧
    ((driverOn noSyncFrame).read zeroData).1._stream.rx = List.replicate 30 0 ++ [0x01] ∧
    ((driverOn noSyncFrame).read zeroData).1._stream.available = 31 := by
  decide

/-- C6, amended: for all 32-byte sequences at the head of the stream whose first byte
is 0x42 and where the sum of bytes 0..29 (mod 65536) differs from the big-endian 16-bit
value of bytes 30..31, `read` consumes all 32 bytes and returns false, leaving status as
Waiting (and the output record untouched). -/
theorem C6_bad_checksum_dropped (p : PMS) (data : DATA) (f rest : List Byte)
    (hrx : p._stream.rx = f ++ rest) (hlen : f.length = 32) (h0 : byteAt f 0 = 0x42)
    (hc : frameSum f ≠ be16 (byteAt f 30) (byteAt f 31)) :
    (p.read data).2.2 = false ∧ (p.read data).1._stream.rx = rest ∧
    (p.read data).1._status = STATUS.STATUS_WAITING ∧ (p.read data).2.1 = data := by
  obtain ⟨t, ht⟩ := frame_head f rest (by omega) h0
  have hl : 32 ≤ p._stream.rx.length := by rw [hrx, List.length_append]; omega
  have hc2 : ¬ ChecksumOk p._stream.rx := by
    rw [hrx]; exact fun h => hc ((checksumOk_append_left f rest hlen).1 h)
  rw [read_bad p data t (hrx.trans ht) hl hc2, hrx,
    List.drop_append_of_le_length (by omega), ← hlen, List.drop_length]
  exact ⟨rfl, rfl, rfl, rfl⟩

/-- C6 amended, at a concrete input: `badFrame` alone on the stream. -/
theorem C6_bad_checksum_dropped_witness :
    (driverOn badFrame)._stream.rx = badFrame ++ [] ∧ badFrame.length = 32 ∧
    byteAt badFrame 0 = 0x42 ∧
    frameSum badFrame ≠ be16 (byteAt badFrame 30) (byteAt badFrame 31) ∧
    ((driverOn badFrame).read sampleData).2.2 = false ∧
    ((driverOn badFrame).read sampleData).1._stream.rx = [] :=
  ⟨by decide, by decide, by decide, by decide,
    (C6_bad_checksum_dropped (driverOn badFrame) sampleData badFrame [] (by decide)
      (by decide) (by decide) (by decide)).1,
    (C6_bad_checksum_dropped (driverOn badFrame) sampleData badFrame [] (by decide)
      (by decide) (by decide) (by decide)).2.1⟩

/-! ## Incomplete frames -/

theorem readRepeat_short (k : Nat) (p : PMS) (data : DATA) (rest : List Byte)
    (hrx : p._stream.rx = 0x42 :: rest) (hl : p._stream.rx.length < 32) :
    (readRepeat k p data).1._stream = p._stream ∧ (readRepeat k p data).2 = data ∧
    (readRepeat k p data).1._mode = p._mode := by
  induction k generalizing p with
  | zero => exact ⟨rfl, rfl, rfl⟩
  | succ n ih =>
    have hr := read_short p data rest hrx hl
    have h := ih (p.read data).1 (by rw [hr]; exact hrx) (by rw [hr]; exact hl)
    simp only [readRepeat]
    rw [hr] at h ⊢
    exact h

/-- C7 (incomplete frame): when the head byte is 0x42 and only n bytes are pending,
1 <= n <= 31, every call of `read` returns false and consumes nothing, however often it
is repeated while no byte arrives (after any number `k` of calls the stream and the
output record are what they were, and call `k + 1` again returns false and leaves the
stream as it is); once further bytes arrive so that at least 32 are available, the next
`read` consumes exactly the first 32 bytes, returns true exactly when their checksum
matches, and then delivers the measurement they carry. -/
theorem C7_incomplete_frame_waits (p : PMS) (data : DATA) (rest : List Byte)
    (hrx : p._stream.rx = 0x42 :: rest) (hl : p._stream.available ≤ 31) :
    (∀ k : Nat,
      (readRepeat k p data).1._stream = p._stream ∧ (readRepeat k p data).2 = data ∧
      ((readRepeat k p data).1.read (readRepeat k p data).2).2.2 = false ∧
      ((readRepeat k p data).1.read (readRepeat k p data).2).1._stream = p._stream) ∧
    (∀ (k : Nat) (more : List Byte), 32 ≤ (p._stream.rx ++ more).length →
      ((arrive (readRepeat k p data).1 more).read data).1._stream.rx
          = (p._stream.rx ++ more).drop 32 ∧
      (((arrive (readRepeat k p data).1 more).read data).2.2 = true ↔
          ChecksumOk (p._stream.rx ++ more)) ∧
      (((arrive (readRepeat k p data).1 more).read data).2.2 = true →
          ((arrive (readRepeat k p data).1 more).read data).2.1
            = decodeFrame ((p._stream.rx ++ more).take 32))) := by
  have hl2 : p._stream.rx.length < 32 := by
    have : p._stream.rx.length ≤ 31 := hl
    omega
  constructor
  · intro k
    obtain ⟨h1, h2, _⟩ := readRepeat_short k p data rest hrx hl2
    have hr := read_short (readRepeat k p data).1 (readRepeat k p data).2 rest
      (by rw [h1]; exact hrx) (by rw [h1]; exact hl2)
    refine ⟨h1, h2, ?_, ?_⟩
    · rw [hr]
    · rw [hr]; exact h1
  · intro k more h32
    obtain ⟨h1, _, _⟩ := readRepeat_short k p data rest hrx hl2
    have hq : (arrive (readRepeat k p data).1 more)._stream.rx = p._stream.rx ++ more := by
      simp [arrive, h1]
    have hq2 : (arrive (readRepeat k p data).1 more)._stream.rx = 0x42 :: (rest ++ more) := by
      rw [hq, hrx]; rfl
    have hq3 : 32 ≤ (arrive (readRepeat k p data).1 more)._stream.rx.length := by
      rw [hq]; exact h32
    have htake : (p._stream.rx ++ more).take 32 ++ (p._stream.rx ++ more).drop 32
        = p._stream.rx ++ more := List.take_append_drop _ _
    have hdec : decodeFrame (p._stream.rx ++ more)
        = decodeFrame ((p._stream.rx ++ more).take 32) := by
      conv_lhs => rw [← htake]
      exact decodeFrame_append_left _ _ (by rw [List.length_take]; omega)
    by_cases hc : ChecksumOk (p._stream.rx ++ more)
    · rw [read_good _ data _ hq2 hq3 (by rw [hq]; exact hc), hq]
      exact ⟨rfl, ⟨fun _ => hc, fun _ => rfl⟩, fun _ => hdec⟩
    · rw [read_bad _ data _ hq2 hq3 (by rw [hq]; exact hc), hq]
      refine ⟨rfl, ⟨fun h => ?_, fun h => absurd h hc⟩, fun h => ?_⟩
      · exact absurd h (by simp)
      · exact absurd h (by simp)

/-- C7 at a concrete input: the first 31 bytes of `sampleFrame` are pending; three
reads change nothing, and once the last byte has arrived the frame is read. -/
theorem C7_incomplete_frame_waits_witness :
    (driverOn (sampleFrame.take 31))._stream.rx = 0x42 :: (sampleFrame.take 31).tail ∧
    (driverOn (sampleFrame.take 31))._stream.available ≤ 31 ∧
    (readRepeat 3 (driverOn (sampleFrame.take 31)) zeroData).1._stream
      = (driverOn (sampleFrame.take 31))._stream ∧
    ((arrive (readRepeat 3 (driverOn (sampleFrame.take 31)) zeroData).1 [0xF9]).read
        zeroData).1._stream.rx = [] :=
  ⟨by decide, by decide,
    ((C7_incomplete_frame_waits (driverOn (sampleFrame.take 31)) zeroData
      (sampleFrame.take 31).tail (by decide) (by decide)).1 3).1,
    ((C7_incomplete_frame_waits (driverOn (sampleFrame.take 31)) zeroData
      (sampleFrame.take 31).tail (by decide) (by decide)).2 3 [0xF9] (by decide)).1⟩

/-! ## `requestRead` and `readUntil` -/

/-- C8: `requestRead` writes zero bytes when the mode is Active (in particular on a
freshly constructed driver), and when the mode is Passive writes exactly the 7 bytes
0x42,0x4D,0xE2,0x00,0x00,0x01,0x71; in both cases mode, status and the input side of
the stream are unchanged. -/
theorem C8_requestRead (p : PMS) (stream : Stream) (status0 : STATUS) :
    (p._mode = MODE.MODE_ACTIVE → p.requestRead._stream.tx = p._stream.tx) ∧
    (PMS.new stream status0).requestRead._stream.tx = stream.tx ∧
    (p._mode = MODE.MODE_PASSIVE →
      p.requestRead._stream.tx = p._stream.tx ++ [0x42, 0x4D, 0xE2, 0x00, 0x00, 0x01, 0x71]) ∧
    p.requestRead._mode = p._mode ∧ p.requestRead._status = p._status ∧
    p.requestRead._stream.rx = p._stream.rx := by
  refine ⟨?_, rfl, ?_, ?_, ?_, ?_⟩
  · intro h; simp [PMS.requestRead, h]
  · intro h; simp [PMS.requestRead, h, Stream.write]
  all_goals
    unfold PMS.requestRead
    split <;> rfl

theorem readUntilLoop_zero (millis : Nat → Nat) (start fuel t n : Nat) (p : PMS)
    (data : DATA) :
    PMS.readUntilLoop millis start 0 (fuel + 1) t n p data
      = some ((p.loop data).1, (p.loop data).2,
          (if (p.loop data).1._status = STATUS.STATUS_OK then t else t + 1), n + 1) := by
  simp only [PMS.readUntilLoop, Nat.not_lt_zero, if_false]
  split <;> rfl

/-- C9: for every driver state, stream content and clock (`millis` arbitrary, so in
particular non-decreasing), `readUntil` with timeout 0 returns (any positive fuel
suffices), performs exactly one poll cycle, and has the return value and the effect on
driver (stream, status, mode) and output record of a single `read`; in particular with
no available bytes it returns false after that one poll cycle. -/
theorem C9_readUntil_zero_timeout (millis : Nat → Nat) (fuel : Nat) (p : PMS) (data : DATA) :
    (∃ t : Nat, PMS.readUntil millis (fuel + 1) p data 0
      = some ((p.read data).1, (p.read data).2.1, (p.read data).2.2, t, 1)) ∧
    (p._stream.available = 0 →
      PMS.readUntil millis (fuel + 1) p data 0
        = some ({ p with _status := STATUS.STATUS_WAITING }, data, false, 2, 1)) := by
  have h : PMS.readUntil millis (fuel + 1) p data 0
      = some ((p.read data).1, (p.read data).2.1, (p.read data).2.2,
          (if (p.loop data).1._status = STATUS.STATUS_OK then 1 else 2), 1) := by
    simp only [PMS.readUntil, Nat.zero_mod, readUntilLoop_zero, PMS.read]
  refine ⟨⟨_, h⟩, fun h0 => ?_⟩
  have hnil : p._stream.rx = [] := List.length_eq_zero.mp h0
  rw [h, read_nil p data hnil, loop_nil p data hnil]
  simp

/-! ## Claims on `derivedAQI25` -/

/-- C10: `derivedAQI25(0) = 0` and `derivedAQI25(12) = 50`; reading 12 is the last point
of the first band: readings 0 and 12 use table row 0 and reading 13 uses row 1. -/
theorem C10_derivedAQI25_first_band :
    derivedAQI25 0 = some 0 ∧ derivedAQI25 12 = some 50 ∧
    rowIndex 0 = 0 ∧ rowIndex 12 = 0 ∧ rowIndex 13 = 1 := by
  decide!

/-! ## Bytes consumed by one poll cycle -/

/-- C15: for every stream content one poll cycle (`read`) consumes exactly 0, 1 or 32
bytes: 0 when the stream is empty or when the head byte is 0x42 and fewer than 32 bytes
are available; 1 when the head byte is not 0x42; 32 when the head byte is 0x42 and at
least 32 bytes are available, whether or not the checksum matches. The unconsumed
remainder of the stream is unchanged and `read` writes nothing to the stream. -/
theorem C15_read_consumes_0_1_32 (p : PMS) (data : DATA) :
    (∃ k : Nat, (k = 0 ∨ k = 1 ∨ k = 32) ∧
      (p.read data).1._stream.rx = p._stream.rx.drop k ∧
      (p.read data).1._stream.available + k = p._stream.available) ∧
    (p._stream.available = 0 → (p.read data).1._stream.rx = p._stream.rx) ∧
    (p._stream.rx.head? = some 0x42 → p._stream.available < 32 →
      (p.read data).1._stream.rx = p._stream.rx) ∧
    (∀ (b : Byte) (rest : List Byte), p._stream.rx = b :: rest → b ≠ 0x42 →
      (p.read data).1._stream.rx = rest) ∧
    (p._stream.rx.head? = some 0x42 → 32 ≤ p._stream.available →
      (p.read data).1._stream.rx = p._stream.rx.drop 32) ∧
    (p.read data).1._stream.tx = p._stream.tx := by
  rcases read_cases p data with ⟨hrx, hr⟩ | ⟨b, rest, hrx, hb, hr⟩ | ⟨rest, hrx, hl, hr⟩ |
    ⟨rest, hrx, hl, hc, hr⟩ | ⟨rest, hrx, hl, hc, hr⟩
  · rw [hr]
    refine ⟨⟨0, Or.inl rfl, rfl, rfl⟩, fun _ => rfl, fun _ _ => rfl, ?_, ?_, rfl⟩
    · intro b rest h; rw [hrx] at h; exact absurd h (by simp)
    · intro h; rw [hrx] at h; exact absurd h (by simp)
  · rw [hr]
    refine ⟨⟨1, Or.inr (Or.inl rfl), ?_, ?_⟩, ?_, ?_, ?_, ?_, rfl⟩
    · simp [hrx]
    · simp [Stream.available, hrx]
    · intro h; simp [Stream.available, hrx] at h
    · intro h; rw [hrx] at h
      simp only [List.head?_cons, Option.some.injEq] at h
      exact absurd h hb
    · intro b2 rest2 h _
      rw [hrx] at h
      simp only [List.cons.injEq] at h
      exact h.2
    · intro h; rw [hrx] at h
      simp only [List.head?_cons, Option.some.injEq] at h
      exact absurd h hb
  · rw [hr]
    refine ⟨⟨0, Or.inl rfl, rfl, rfl⟩, fun _ => rfl, fun _ _ => rfl, ?_, ?_, rfl⟩
    · intro b rest2 h hb; rw [hrx] at h
      simp only [List.cons.injEq] at h
      exact absurd h.1.symm hb
    · intro _ h32
      have : p._stream.rx.length < 32 := hl
      have : 32 ≤ p._stream.rx.length := h32
      omega
  · rw [hr]
    refine ⟨⟨32, Or.inr (Or.inr rfl), rfl, ?_⟩, ?_, ?_, ?_, fun _ _ => rfl, rfl⟩
    · simp only [Stream.available, List.length_drop]; omega
    · intro h
      have : p._stream.rx.length = 0 := h
      omega
    · intro _ h
      have : p._stream.rx.length < 32 := h
      omega
    · intro b rest2 h hb; rw [hrx] at h
      simp only [List.cons.injEq] at h
      exact absurd h.1.symm hb
  · rw [hr]
    refine ⟨⟨32, Or.inr (Or.inr rfl), rfl, ?_⟩, ?_, ?_, ?_, fun _ _ => rfl, rfl⟩
    · simp only [Stream.available, List.length_drop]; omega
    · intro h
      have : p._stream.rx.length = 0 := h
      omega
    · intro _ h
      have : p._stream.rx.length < 32 := h
      omega
    · intro b rest2 h hb; rw [hrx] at h
      simp only [List.cons.injEq] at h
      exact absurd h.1.symm hb

/-! ## Resynchronisation -/

theorem readRepeat_noise (k : Nat) (p : PMS) (data : DATA) (noise tail : List Byte)
    (hn : ∀ b ∈ noise, b ≠ 0x42) (hrx : p._stream.rx = noise ++ tail)
    (hk : k ≤ noise.length) :
    (readRepeat k p data).1._stream.rx = noise.drop k ++ tail ∧
    (readRepeat k p data).2 = data ∧
    (readRepeat k p data).1._stream.tx = p._stream.tx := by
  induction k generalizing p noise with
  | zero => exact ⟨hrx, rfl, rfl⟩
  | succ n ih =>
    cases noise with
    | nil => simp at hk
    | cons b rest =>
      have hb : b ≠ 0x42 := hn b (List.mem_cons_self _ _)
      have hr := read_resync p data b (rest ++ tail) hrx hb
      have h := ih (p.read data).1 rest (fun c hc => hn c (List.mem_cons_of_mem _ hc))
        (by rw [hr]) (by simpa using hk)
      simp only [readRepeat]
      rw [hr] at h ⊢
      simpa using h

/-- C17: byte-by-byte resynchronisation recovers the next frame. For every `k >= 0` and
every stream that consists of `k` noise bytes, none of them 0x42, followed by a complete
checksum-valid 32-byte frame: each of the first `k` calls of `read` returns false and
consumes exactly one byte (before call `j + 1` the pending bytes are the noise without
its first `j` bytes, then the frame; the output record is still untouched), and call
`k + 1` returns true with the output record equal to the decoded frame and the stream
left empty. -/
theorem C17_resync_recovers_frame (p : PMS) (data : DATA) (noise frame : List Byte)
    (hn : ∀ b ∈ noise, b ≠ 0x42) (hrx : p._stream.rx = noise ++ frame)
    (hlen : frame.length = 32) (h0 : byteAt frame 0 = 0x42) (hc : ChecksumOk frame) :
    (∀ j : Nat, j < noise.length →
      (readRepeat j p data).1._stream.rx = noise.drop j ++ frame ∧
      (readRepeat j p data).2 = data ∧
      ((readRepeat j p data).1.read (readRepeat j p data).2).2.2 = false ∧
      ((readRepeat j p data).1.read (readRepeat j p data).2).1._stream.rx
        = noise.drop (j + 1) ++ frame) ∧
    ((readRepeat noise.length p data).1.read (readRepeat noise.length p data).2).2.2 = true ∧
    ((readRepeat noise.length p data).1.read (readRepeat noise.length p data).2).2.1
      = decodeFrame frame ∧
    ((readRepeat noise.length p data).1.read (readRepeat noise.length p data).2).1._stream.rx
      = [] := by
  constructor
  · intro j hj
    obtain ⟨h1, h2, _⟩ := readRepeat_noise j p data noise frame hn hrx (by omega)
    obtain ⟨h3, _, _⟩ := readRepeat_noise (j + 1) p data noise frame hn hrx (by omega)
    refine ⟨h1, h2, ?_, ?_⟩
    · have hd : noise.drop j = noise[j] :: noise.drop (j + 1) := List.drop_eq_getElem_cons hj
      have hb : noise[j] ≠ 0x42 := hn _ (List.getElem_mem _)
      rw [read_resync _ _ noise[j] (noise.drop (j + 1) ++ frame) (by rw [h1, hd]; rfl) hb]
    · have hd : noise.drop j = noise[j] :: noise.drop (j + 1) := List.drop_eq_getElem_cons hj
      have hb : noise[j] ≠ 0x42 := hn _ (List.getElem_mem _)
      rw [read_resync _ _ noise[j] (noise.drop (j + 1) ++ frame) (by rw [h1, hd]; rfl) hb]
  · obtain ⟨h1, _, _⟩ := readRepeat_noise noise.length p data noise frame hn hrx (le_refl _)
    rw [List.drop_length, List.nil_append] at h1
    rw [read_frame _ _ frame [] (by rw [h1, List.append_nil]) hlen h0 hc]
    exact ⟨rfl, rfl, rfl⟩

/-- C17 at a concrete input: three noise bytes, then `sampleFrame`. -/
theorem C17_resync_recovers_frame_witness :
    (∀ b ∈ ([0x4D, 0x00, 0xFF] : List Byte), b ≠ 0x42) ∧
    (driverOn ([0x4D, 0x00, 0xFF] ++ sampleFrame))._stream.rx
      = [0x4D, 0x00, 0xFF] ++ sampleFrame ∧
    sampleFrame.length = 32 ∧ byteAt sampleFrame 0 = 0x42 ∧ ChecksumOk sampleFrame ∧
    ((readRepeat 3 (driverOn ([0x4D, 0x00, 0xFF] ++ sampleFrame)) zeroData).1.read
      (readRepeat 3 (driverOn ([0x4D, 0x00, 0xFF] ++ sampleFrame)) zeroData).2).2.1
        = decodeFrame sampleFrame :=
  ⟨by simp, rfl, by decide, by decide, by decide,
    (C17_resync_recovers_frame (driverOn ([0x4D, 0x00, 0xFF] ++ sampleFrame)) zeroData
      [0x4D, 0x00, 0xFF] sampleFrame (by simp) rfl (by decide) (by decide)
      (by decide)).2.2.1⟩

/-! ## Control commands -/

/-- C18: each of the five fixed control commands written by `sleep`, `wakeUp`,
`activeMode`, `passiveMode` and `requestRead` (the latter in Passive mode) is a
well-formed 7-byte command frame: exactly 7 bytes are appended to the output side, they
start with 0x42, 0x4D, and the last two bytes are the big-endian 16-bit sum of the
first five bytes. -/
theorem C18_commands_well_formed (p : PMS) (cmd : List Byte)
    (h : p.sleep._stream.tx = p._stream.tx ++ cmd ∨
         p.wakeUp._stream.tx = p._stream.tx ++ cmd ∨
         p.activeMode._stream.tx = p._stream.tx ++ cmd ∨
         p.passiveMode._stream.tx = p._stream.tx ++ cmd ∨
         (p._mode = MODE.MODE_PASSIVE ∧ p.requestRead._stream.tx = p._stream.tx ++ cmd)) :
    cmd.length = 7 ∧ byteAt cmd 0 = 0x42 ∧ byteAt cmd 1 = 0x4D ∧
    be16 (byteAt cmd 5) (byteAt cmd 6)
      = ((cmd.take 5).map (fun b => b.val)).sum % 65536 := by
  rcases h with h | h | h | h | ⟨hm, h⟩
  · have : cmd = [0x42, 0x4D, 0xE4, 0x00, 0x00, 0x01, 0x73] := by
      simpa [PMS.sleep, Stream.write] using h.symm
    subst this; decide
  · have : cmd = [0x42, 0x4D, 0xE4, 0x00, 0x01, 0x01, 0x74] := by
      simpa [PMS.wakeUp, Stream.write] using h.symm
    subst this; decide
  · have : cmd = [0x42, 0x4D, 0xE1, 0x00, 0x01, 0x01, 0x71] := by
      simpa [PMS.activeMode, Stream.write] using h.symm
    subst this; decide
  · have : cmd = [0x42, 0x4D, 0xE1, 0x00, 0x00, 0x01, 0x70] := by
      simpa [PMS.passiveMode, Stream.write] using h.symm
    subst this; decide
  · have : cmd = [0x42, 0x4D, 0xE2, 0x00, 0x00, 0x01, 0x71] := by
      simpa [PMS.requestRead, hm, Stream.write] using h.symm
    subst this; decide

/-- C18 at a concrete input: the bytes `sleep` writes on a fresh driver. -/
theorem C18_commands_well_formed_witness :
    (driverOn []).sleep._stream.tx
      = (driverOn [])._stream.tx ++ [0x42, 0x4D, 0xE4, 0x00, 0x00, 0x01, 0x73] ∧
    be16 0x01 0x73 = 0x42 + 0x4D + 0xE4 + 0x00 + 0x00 :=
  ⟨rfl, (C18_commands_well_formed (driverOn []) [0x42, 0x4D, 0xE4, 0x00, 0x00, 0x01, 0x73]
      (Or.inl rfl)).2.2.2.trans (by decide)⟩

/-! ## The checksum accumulator -/

theorem foldl_sum_no_wrap (buffer : List Byte) (n : Nat) (hn : n ≤ 257) :
    (List.range n).foldl (fun sum i => (sum + (buffer.getD i 0).val) % 65536) 0
      = (List.range n).foldl (fun sum i => sum + (buffer.getD i 0).val) 0 ∧
    (List.range n).foldl (fun sum i => sum + (buffer.getD i 0).val) 0 ≤ 255 * n := by
  induction n with
  | zero => simp
  | succ k ih =>
    obtain ⟨h1, h2⟩ := ih (by omega)
    have hb := (buffer.getD k 0).isLt
    rw [List.range_succ, List.foldl_append, List.foldl_append, h1]
    simp only [List.foldl_cons, List.foldl_nil]
    constructor
    · apply Nat.mod_eq_of_lt
      omega
    · omega

/-- C19: for every 32-byte buffer the unsigned 16-bit checksum accumulator of the poll
cycle never wraps around: the loop with the 16-bit reduction computes the same value as
the loop over unbounded integers, that value is the plain sum of bytes 0..29 and is at
most 30 * 255 = 7650 < 65536; consequently, whenever `read` accepts a frame (returns
true), its transmitted checksum word (bytes 30..31, big-endian) is at most 7650. -/
theorem C19_checksum_never_wraps (buffer : List Byte) (p : PMS) (data : DATA) :
    checksumLoop buffer
      = (List.range 30).foldl (fun sum i => sum + (buffer.getD i 0).val) 0 ∧
    checksumLoop buffer ≤ 7650 ∧
    (buffer.length = 32 →
      checksumLoop buffer = ((buffer.take 30).map (fun b => b.val)).sum) ∧
    ((p.read data).2.2 = true →
      be16 (byteAt p._stream.rx 30) (byteAt p._stream.rx 31) ≤ 7650) := by
  obtain ⟨h1, h2⟩ := foldl_sum_no_wrap buffer 30 (by omega)
  have hle : checksumLoop buffer ≤ 7650 := by
    unfold checksumLoop
    rw [h1]
    omega
  refine ⟨h1, hle, ?_, ?_⟩
  · intro hlen
    have hm := foldl_sum_take buffer 30 (by omega)
    have hc : checksumLoop buffer
        = ((buffer.take 30).map (fun b => b.val)).sum % 65536 := hm
    have hs : ∀ l : List Byte, (l.map (fun b => b.val)).sum ≤ 255 * l.length := by
      intro l
      induction l with
      | nil => simp
      | cons b t ih =>
        have := b.isLt
        simp only [List.map_cons, List.sum_cons, List.length_cons]
        omega
    have h30 := hs (buffer.take 30)
    rw [List.length_take] at h30
    rw [hc]
    apply Nat.mod_eq_of_lt
    omega
  · intro ht
    rcases read_cases p data with ⟨hrx, hr⟩ | ⟨b, rest, hrx, hb, hr⟩ | ⟨rest, hrx, hl, hr⟩ |
      ⟨rest, hrx, hl, hc, hr⟩ | ⟨rest, hrx, hl, hc, hr⟩
    · rw [hr] at ht; simp at ht
    · rw [hr] at ht; simp at ht
    · rw [hr] at ht; simp at ht
    · rw [hr] at ht; simp at ht
    · have hcs : frameSum p._stream.rx
          = be16 (byteAt p._stream.rx 30) (byteAt p._stream.rx 31) := hc
      obtain ⟨h3, h4⟩ := foldl_sum_no_wrap (p._stream.rx.take 32) 30 (by omega)
      rw [← hcs, ← checksumLoop_take _ hl]
      unfold checksumLoop
      rw [h3]
      omega

/-! ## Persistence of the mode -/

theorem loop_mode (p : PMS) (data : DATA) : (p.loop data).1._mode = p._mode := by
  have h : (p.read data).1 = (p.loop data).1 := rfl
  rw [← h]
  rcases read_cases p data with ⟨_, hr⟩ | ⟨_, _, _, _, hr⟩ | ⟨_, _, _, hr⟩ |
    ⟨_, _, _, _, hr⟩ | ⟨_, _, _, _, hr⟩ <;> rw [hr]

theorem readUntilLoop_mode (millis : Nat → Nat) (start timeout fuel : Nat) :
    ∀ (t n : Nat) (p : PMS) (data : DATA) (r : PMS × DATA × Nat × Nat),
      PMS.readUntilLoop millis start timeout fuel t n p data = some r →
      r.1._mode = p._mode := by
  induction fuel with
  | zero => intro t n p data r h; simp [PMS.readUntilLoop] at h
  | succ k ih =>
    intro t n p data r h
    simp only [PMS.readUntilLoop] at h
    split at h
    · simp only [Option.some.injEq] at h
      rw [← h]; exact loop_mode p data
    · split at h
      · rw [ih _ _ _ _ r h]; exact loop_mode p data
      · simp only [Option.some.injEq] at h
        rw [← h]; exact loop_mode p data

theorem readUntil_mode (millis : Nat → Nat) (fuel timeout : Nat) (p : PMS) (data : DATA)
    (r : PMS × DATA × Bool × Nat × Nat)
    (h : PMS.readUntil millis fuel p data timeout = some r) : r.1._mode = p._mode := by
  unfold PMS.readUntil at h
  simp only [] at h
  split at h
  · simp at h
  · rename_i q d t n heq
    simp only [Option.some.injEq] at h
    rw [← h]
    exact readUntilLoop_mode millis _ _ fuel 1 0 p data _ heq

/-- The loop of `readUntil` returns once the clock has reached the deadline: if the
`T`-th call of `millis()` reports a time at which `millis() - start < timeout` fails,
fuel `T - t + 1` suffices from call number `t` on. -/
theorem readUntilLoop_returns (millis : Nat → Nat) (start timeout T : Nat)
    (hT : ¬ (millis T % 4294967296 + 4294967296 - start) % 4294967296 < timeout)
    (fuel : Nat) :
    ∀ (t n : Nat) (p : PMS) (data : DATA), t ≤ T → T - t < fuel →
      (PMS.readUntilLoop millis start timeout fuel t n p data).isSome = true := by
  induction fuel with
  | zero => intro t n p data _ h; omega
  | succ k ih =>
    intro t n p data h1 h2
    simp only [PMS.readUntilLoop]
    split
    · rfl
    · split
      · rename_i hlt
        have hne : t ≠ T := fun h => hT (h ▸ hlt)
        exact ih (t + 1) (n + 1) _ _ (by omega) (by omega)
      · rfl

/-- Function `readUntil` returns whenever the clock reaches the deadline within the
fuel: termination is not an assumption of the statements about completed calls. -/
theorem readUntil_returns (millis : Nat → Nat) (fuel timeout T : Nat) (p : PMS)
    (data : DATA) (h1 : 1 ≤ T) (hfuel : T ≤ fuel)
    (hT : ¬ (millis T % 4294967296 + 4294967296 - millis 0 % 4294967296) % 4294967296
        < timeout % 65536) :
    (PMS.readUntil millis fuel p data timeout).isSome = true := by
  have h := readUntilLoop_returns millis (millis 0 % 4294967296) (timeout % 65536) T hT
    fuel 1 0 p data h1 (by omega)
  unfold PMS.readUntil
  simp only []
  cases hr : PMS.readUntilLoop millis (millis 0 % 4294967296) (timeout % 65536) fuel 1 0
      p data with
  | none => rw [hr] at h; simp at h
  | some r => rfl

/-- Every step other than the two mode switches keeps the mode. -/
theorem apply_mode (op : Op) (s s1 : PMS × DATA) (h : op.apply s = some s1) :
    s1.1._mode = modeAfter [op] s.1._mode := by
  cases op with
  | sleep => simp only [Op.apply, Option.some.injEq] at h; rw [← h]; rfl
  | wakeUp => simp only [Op.apply, Option.some.injEq] at h; rw [← h]; rfl
  | activeMode => simp only [Op.apply, Option.some.injEq] at h; rw [← h]; rfl
  | passiveMode => simp only [Op.apply, Option.some.injEq] at h; rw [← h]; rfl
  | requestRead =>
    simp only [Op.apply, Option.some.injEq] at h; rw [← h]
    show s.1.requestRead._mode = s.1._mode
    unfold PMS.requestRead
    split <;> rfl
  | read =>
    simp only [Op.apply, Option.some.injEq] at h; rw [← h]
    exact loop_mode s.1 s.2
  | readUntil millis fuel timeout =>
    simp only [Op.apply] at h
    split at h
    · simp at h
    · rename_i r heq
      simp only [Option.some.injEq] at h
      rw [← h]
      exact readUntil_mode millis fuel timeout s.1 s.2 r heq
  | arrive more => simp only [Op.apply, Option.some.injEq] at h; rw [← h]; rfl

theorem modeAfter_cons (op : Op) (ops : List Op) (m : MODE) :
    modeAfter (op :: ops) m = modeAfter ops (modeAfter [op] m) := by
  cases op <;> rfl

theorem runOps_mode (ops : List Op) :
    ∀ (s s1 : PMS × DATA), runOps ops s = some s1 →
      s1.1._mode = modeAfter ops s.1._mode := by
  induction ops with
  | nil => intro s s1 h; simp only [runOps, Option.some.injEq] at h; rw [← h]; rfl
  | cons op ops ih =>
    intro s s1 h
    simp only [runOps] at h
    split at h
    · simp at h
    · rename_i s2 heq
      rw [modeAfter_cons, ← apply_mode op s s2 heq]
      exact ih s2 s1 h

theorem modeAfter_passive_iff (ops : List Op) :
    ∀ m : MODE, modeAfter ops m = MODE.MODE_PASSIVE ↔
      ((∃ pre post, ops = pre ++ Op.passiveMode :: post ∧ Op.activeMode ∉ post) ∨
       (m = MODE.MODE_PASSIVE ∧ Op.activeMode ∉ ops)) := by
  induction ops with
  | nil => intro m; simp [modeAfter]
  | cons op ops ih =>
    intro m
    rw [modeAfter_cons, ih]
    constructor
    · rintro (⟨pre, post, h1, h2⟩ | ⟨h1, h2⟩)
      · exact Or.inl ⟨op :: pre, post, by rw [h1]; rfl, h2⟩
      · cases op with
        | activeMode => exact absurd h1 (by simp [modeAfter])
        | passiveMode => exact Or.inl ⟨[], ops, rfl, h2⟩
        | sleep => exact Or.inr ⟨h1, by simp [h2]⟩
        | wakeUp => exact Or.inr ⟨h1, by simp [h2]⟩
        | requestRead => exact Or.inr ⟨h1, by simp [h2]⟩
        | read => exact Or.inr ⟨h1, by simp [h2]⟩
        | readUntil _ _ _ => exact Or.inr ⟨h1, by simp [h2]⟩
        | arrive _ => exact Or.inr ⟨h1, by simp [h2]⟩
    · rintro (⟨pre, post, h1, h2⟩ | ⟨h1, h2⟩)
      · cases pre with
        | nil =>
          simp only [List.nil_append, List.cons.injEq] at h1
          obtain ⟨h3, h4⟩ := h1
          subst h3 h4
          exact Or.inr ⟨rfl, h2⟩
        | cons x pre =>
          simp only [List.cons_append, List.cons.injEq] at h1
          exact Or.inl ⟨pre, post, h1.2, h2⟩
      · have h3 : Op.activeMode ≠ op := fun h => h2 (by rw [h]; exact List.mem_cons_self _ _)
        have h4 : Op.activeMode ∉ ops := fun h => h2 (List.mem_cons_of_mem _ h)
        refine Or.inr ⟨?_, h4⟩
        cases op with
        | activeMode => exact absurd rfl h3
        | passiveMode => rfl
        | sleep => exact h1
        | wakeUp => exact h1
        | requestRead => exact h1
        | read => exact h1
        | readUntil _ _ _ => exact h1
        | arrive _ => exact h1

/-- C16: the mode is a persistent state changed only by the mode-switch commands. After
any finite sequence of steps (`sleep`, `wakeUp`, `activeMode`, `passiveMode`,
`requestRead`, `read`, `readUntil`, with bytes arriving in between) on a freshly
constructed driver, the mode is Passive if and only if the sequence contains a
`passiveMode` call with no later `activeMode` call, and is Active otherwise; and a single
`read`, `readUntil`, `sleep`, `wakeUp` or `requestRead` never changes the mode of any
driver. -/
theorem C16_mode_persistent (ops : List Op) (stream : Stream) (status0 : STATUS)
    (data : DATA) (s1 : PMS × DATA)
    (h : runOps ops (PMS.new stream status0, data) = some s1) :
    (s1.1._mode = MODE.MODE_PASSIVE ↔
      ∃ pre post, ops = pre ++ Op.passiveMode :: post ∧ Op.activeMode ∉ post) ∧
    (s1.1._mode = MODE.MODE_ACTIVE ↔
      ¬ ∃ pre post, ops = pre ++ Op.passiveMode :: post ∧ Op.activeMode ∉ post) ∧
    (∀ (p : PMS) (d : DATA), p.sleep._mode = p._mode ∧ p.wakeUp._mode = p._mode ∧
      p.requestRead._mode = p._mode ∧ (p.read d).1._mode = p._mode ∧
      ∀ (millis : Nat → Nat) (fuel timeout : Nat) (r : PMS × DATA × Bool × Nat × Nat),
        PMS.readUntil millis fuel p d timeout = some r → r.1._mode = p._mode) := by
  have hm := runOps_mode ops _ _ h
  have hiff := modeAfter_passive_iff ops MODE.MODE_ACTIVE
  have h0 : (PMS.new stream status0, data).1._mode = MODE.MODE_ACTIVE := rfl
  rw [h0] at hm
  have hp : s1.1._mode = MODE.MODE_PASSIVE ↔
      ∃ pre post, ops = pre ++ Op.passiveMode :: post ∧ Op.activeMode ∉ post := by
    rw [hm, hiff]
    constructor
    · rintro (h1 | ⟨h1, _⟩)
      · exact h1
      · exact absurd h1 (by decide)
    · exact fun h1 => Or.inl h1
  refine ⟨hp, ?_, ?_⟩
  · rw [← hp]
    cases s1.1._mode <;> simp
  · intro p d
    refine ⟨rfl, rfl, ?_, loop_mode p d, ?_⟩
    · unfold PMS.requestRead
      split <;> rfl
    · intro millis fuel timeout r hr
      exact readUntil_mode millis fuel timeout p d r hr

/-- C16 at a concrete input: `passiveMode`, then a `readUntil` with timeout 1 on a clock
that advances by one per call, run on a fresh driver with an empty stream; the run
completes in `passiveRunResult`, whose mode is Passive. -/
theorem C16_mode_persistent_witness :
    runOps [Op.passiveMode, Op.readUntil (fun k => k) 2 1]
        (PMS.new { rx := [], tx := [] } STATUS.STATUS_OK, zeroData) = some passiveRunResult ∧
    passiveRunResult.1._mode = MODE.MODE_PASSIVE :=
  ⟨rfl,
    (C16_mode_persistent [Op.passiveMode, Op.readUntil (fun k => k) 2 1]
      { rx := [], tx := [] } STATUS.STATUS_OK zeroData passiveRunResult rfl).1.2
      ⟨[], [Op.readUntil (fun k => k) 2 1], rfl, by simp⟩⟩

/-! ## Binary floating-point rounding -/

theorem pow2_eq_zpow (e : Int) : pow2 e = (2 : ℚ) ^ e := by
  unfold pow2
  split
  · rename_i h
    have : e = (e.toNat : Int) := (Int.toNat_of_nonneg h).symm
    conv_rhs => rw [this]
    rw [zpow_natCast]
    push_cast
    rfl
  · rename_i h
    have h2 : -e = ((-e).toNat : Int) := (Int.toNat_of_nonneg (by omega)).symm
    have h3 : e = -(((-e).toNat : Int)) := by omega
    conv_rhs => rw [h3]
    rw [zpow_neg, zpow_natCast]
    push_cast
    rw [one_div]

theorem pow2_pos (e : Int) : 0 < pow2 e := by
  rw [pow2_eq_zpow]; positivity

theorem pow2_add (a b : Int) : pow2 (a + b) = pow2 a * pow2 b := by
  simp only [pow2_eq_zpow]
  exact zpow_add₀ (by norm_num) a b

theorem pow2_le_pow2 {a b : Int} (h : a ≤ b) : pow2 a ≤ pow2 b := by
  simp only [pow2_eq_zpow]
  exact zpow_le_zpow_right₀ (by norm_num) h

theorem pow2_lt_pow2_iff {a b : Int} : pow2 a < pow2 b ↔ a < b := by
  simp only [pow2_eq_zpow]
  exact zpow_lt_zpow_iff_right₀ (by norm_num)

theorem pow2_natCast (k : Nat) : pow2 (k : Int) = ((2 ^ k : Nat) : ℚ) := by
  rw [pow2_eq_zpow, zpow_natCast]; push_cast; rfl

theorem log2Fuel_spec (fuel : Nat) : ∀ n : Nat, n ≤ fuel → 0 < n →
    2 ^ log2Fuel fuel n ≤ n ∧ n < 2 ^ (log2Fuel fuel n + 1) := by
  induction fuel with
  | zero => intro n h1 h2; omega
  | succ k ih =>
    intro n h1 h2
    unfold log2Fuel
    split
    · rename_i hlt
      simp only [pow_zero, zero_add, pow_one]
      omega
    · rename_i hge
      obtain ⟨h3, h4⟩ := ih (n / 2) (by omega) (by omega)
      rw [Nat.pow_succ, Nat.pow_succ]
      constructor <;> omega

theorem log2_spec (n : Nat) (h : 0 < n) : 2 ^ log2 n ≤ n ∧ n < 2 ^ (log2 n + 1) :=
  log2Fuel_spec n n (le_refl n) h
theorem abs_eq_natAbs_div_den (q : ℚ) : |q| = (q.num.natAbs : ℚ) / (q.den : ℚ) := by
  conv_lhs => rw [← Rat.num_div_den q]
  rw [abs_div, Nat.cast_natAbs, Int.cast_abs]
  congr 1
  exact abs_of_pos (by exact_mod_cast q.den_pos)

theorem ilog2_spec (q : ℚ) (hq : q ≠ 0) :
    pow2 (ilog2 q) ≤ |q| ∧ |q| < pow2 (ilog2 q + 1) := by
  have hN0 : 0 < q.num.natAbs := Int.natAbs_pos.mpr (Rat.num_ne_zero.mpr hq)
  have hD0 : 0 < q.den := q.den_pos
  obtain ⟨hN1, hN2⟩ := log2_spec _ hN0
  obtain ⟨hD1, hD2⟩ := log2_spec _ hD0
  have hN1q : (2 : ℚ) ^ log2 q.num.natAbs ≤ (q.num.natAbs : ℚ) := by exact_mod_cast hN1
  have hN2q : (q.num.natAbs : ℚ) < (2 : ℚ) ^ (log2 q.num.natAbs + 1) := by exact_mod_cast hN2
  have hD1q : (2 : ℚ) ^ log2 q.den ≤ (q.den : ℚ) := by exact_mod_cast hD1
  have hD2q : (q.den : ℚ) < (2 : ℚ) ^ (log2 q.den + 1) := by exact_mod_cast hD2
  have hDpos : (0 : ℚ) < (q.den : ℚ) := by exact_mod_cast hD0
  have hNpos : (0 : ℚ) < (q.num.natAbs : ℚ) := by exact_mod_cast hN0
  have habs := abs_eq_natAbs_div_den q
  have hU : |q| < pow2 ((log2 q.num.natAbs : Int) - (log2 q.den : Int) + 1) := by
    have he : (log2 q.num.natAbs : Int) - (log2 q.den : Int) + 1
        = ((log2 q.num.natAbs + 1 : Nat) : Int) - ((log2 q.den : Nat) : Int) := by
      push_cast; ring
    rw [he, pow2_eq_zpow, zpow_sub₀ (by norm_num), zpow_natCast, zpow_natCast, habs,
      div_lt_div_iff₀ hDpos (by positivity)]
    calc (q.num.natAbs : ℚ) * 2 ^ log2 q.den
        ≤ (q.num.natAbs : ℚ) * q.den := by
          exact mul_le_mul_of_nonneg_left hD1q hNpos.le
      _ < 2 ^ (log2 q.num.natAbs + 1) * q.den := by
          exact mul_lt_mul_of_pos_right hN2q hDpos
  have hL : pow2 ((log2 q.num.natAbs : Int) - (log2 q.den : Int) - 1) ≤ |q| := by
    have he : (log2 q.num.natAbs : Int) - (log2 q.den : Int) - 1
        = ((log2 q.num.natAbs : Nat) : Int) - ((log2 q.den + 1 : Nat) : Int) := by
      push_cast; ring
    rw [he, pow2_eq_zpow, zpow_sub₀ (by norm_num), zpow_natCast, zpow_natCast, habs,
      div_le_div_iff₀ (by positivity) hDpos]
    calc (2 : ℚ) ^ log2 q.num.natAbs * q.den
        ≤ (q.num.natAbs : ℚ) * q.den := by
          exact mul_le_mul_of_nonneg_right hN1q hDpos.le
      _ ≤ (q.num.natAbs : ℚ) * 2 ^ (log2 q.den + 1) := by
          exact mul_le_mul_of_nonneg_left hD2q.le hNpos.le
  unfold ilog2
  simp only []
  split
  · rename_i h
    exact ⟨h, hU⟩
  · rename_i h
    refine ⟨hL, ?_⟩
    rw [sub_add_cancel]
    exact lt_of_not_le h

theorem ilog2_unique (q : ℚ) (hq : q ≠ 0) (k : Int) (h1 : pow2 k ≤ |q|)
    (h2 : |q| < pow2 (k + 1)) : ilog2 q = k := by
  obtain ⟨h3, h4⟩ := ilog2_spec q hq
  have h5 : k < ilog2 q + 1 := pow2_lt_pow2_iff.mp (lt_of_le_of_lt h1 h4)
  have h6 : ilog2 q < k + 1 := pow2_lt_pow2_iff.mp (lt_of_le_of_lt h3 h2)
  omega
theorem roundHalfEven_abs_sub_le (y : ℚ) : |(roundHalfEven y : ℚ) - y| ≤ 1 / 2 := by
  have h1 : ((⌊y⌋ : Int) : ℚ) ≤ y := Int.floor_le y
  have h2 : y < ((⌊y⌋ : Int) : ℚ) + 1 := Int.lt_floor_add_one y
  unfold roundHalfEven
  simp only []
  rw [abs_le]
  split
  · rename_i h; constructor <;> linarith
  · split
    · rename_i h3 h; push_cast; constructor <;> linarith
    · rename_i h3 h4
      have h5 : y - ((⌊y⌋ : Int) : ℚ) = 1 / 2 := le_antisymm (not_lt.mp h4) (not_lt.mp h3)
      split
      · constructor <;> linarith
      · push_cast; constructor <;> linarith

theorem roundHalfEven_intCast (n : Int) : roundHalfEven (n : ℚ) = n := by
  unfold roundHalfEven
  simp

theorem roundHalfEven_nonneg (y : ℚ) (h : 0 ≤ y) : 0 ≤ roundHalfEven y := by
  have h1 : 0 ≤ ⌊y⌋ := Int.floor_nonneg.mpr h
  unfold roundHalfEven
  simp only []
  split
  · exact h1
  · split
    · omega
    · split
      · exact h1
      · omega

theorem roundBinary_nonneg (prec : Nat) (emin : Int) (q : ℚ) (h : 0 ≤ q) :
    0 ≤ roundBinary prec emin q := by
  unfold roundBinary
  split
  · exact le_refl 0
  · simp only []
    apply mul_nonneg
    · exact_mod_cast roundHalfEven_nonneg _ (div_nonneg h (pow2_pos _).le)
    · exact (pow2_pos _).le

theorem roundBinary_abs_sub_le (prec : Nat) (emin : Int) (q : ℚ) :
    |roundBinary prec emin q - q|
      ≤ pow2 (max (ilog2 q - ((prec - 1 : Nat) : Int)) emin) / 2 := by
  unfold roundBinary
  split
  · rename_i h
    rw [h]
    simp only [sub_self, abs_zero]
    exact (div_pos (pow2_pos _) (by norm_num)).le
  · simp only []
    have hp := pow2_pos (max (ilog2 q - ((prec - 1 : Nat) : Int)) emin)
    have h := roundHalfEven_abs_sub_le (q / pow2 (max (ilog2 q - ((prec - 1 : Nat) : Int)) emin))
    have e : (roundHalfEven (q / pow2 (max (ilog2 q - ((prec - 1 : Nat) : Int)) emin)) : ℚ)
          * pow2 (max (ilog2 q - ((prec - 1 : Nat) : Int)) emin) - q
        = ((roundHalfEven (q / pow2 (max (ilog2 q - ((prec - 1 : Nat) : Int)) emin)) : ℚ)
            - q / pow2 (max (ilog2 q - ((prec - 1 : Nat) : Int)) emin))
          * pow2 (max (ilog2 q - ((prec - 1 : Nat) : Int)) emin) := by
      field_simp
    rw [e, abs_mul, abs_of_pos hp]
    calc _ ≤ 1 / 2 * pow2 (max (ilog2 q - ((prec - 1 : Nat) : Int)) emin) :=
          mul_le_mul_of_nonneg_right h hp.le
      _ = _ := by ring

theorem f32_zero : f32 0 = 0 := by
  unfold f32 roundBinary
  simp

/-- The rounding error of `f32`: at most `2 ^ (-24)` relative, or `2 ^ (-150)` absolute
in the subnormal range. -/
theorem f32_error (q : ℚ) : |f32 q - q| ≤ |q| / 2 ^ 24 + 1 / 2 ^ 150 := by
  by_cases hq : q = 0
  · subst hq
    rw [f32_zero]
    norm_num
  · have h := roundBinary_abs_sub_le 24 (-149) q
    have hq0 : 0 ≤ |q| / 2 ^ 24 := by positivity
    unfold f32
    refine le_trans h ?_
    obtain ⟨hl, _⟩ := ilog2_spec q hq
    rcases le_total (ilog2 q - ((24 - 1 : Nat) : Int)) (-149) with hc | hc
    · rw [max_eq_right hc, pow2_eq_zpow]
      have : (2 : ℚ) ^ (-149 : Int) / 2 = 1 / 2 ^ 150 := by
        rw [zpow_neg]; norm_num
      rw [this]
      linarith
    · rw [max_eq_left hc]
      have e : pow2 (ilog2 q - ((24 - 1 : Nat) : Int)) = pow2 (ilog2 q) / 2 ^ 23 := by
        rw [sub_eq_add_neg, pow2_add, pow2_eq_zpow (-_), zpow_neg, zpow_natCast]
        norm_num
        ring
      rw [e]
      have : pow2 (ilog2 q) / 2 ^ 23 / 2 ≤ |q| / 2 ^ 24 := by
        rw [div_div]
        norm_num
        linarith
      linarith [show (0 : ℚ) ≤ 1 / 2 ^ 150 by positivity]

theorem f32_nonneg (q : ℚ) (h : 0 ≤ q) : 0 ≤ f32 q := roundBinary_nonneg 24 (-149) q h

/-- Integers below `2 ^ 24` are binary32 numbers: rounding leaves them unchanged. -/
theorem f32_natCast (n : Nat) (h : n < 2 ^ 24) : f32 (n : ℚ) = n := by
  by_cases h0 : n = 0
  · subst h0; simpa using f32_zero
  · have hq : (n : ℚ) ≠ 0 := by exact_mod_cast h0
    obtain ⟨hl, _⟩ := ilog2_spec (n : ℚ) hq
    have habs : |(n : ℚ)| = n := abs_of_nonneg (by positivity)
    rw [habs] at hl
    have hlt : pow2 (ilog2 (n : ℚ)) < pow2 24 := by
      refine lt_of_le_of_lt hl ?_
      rw [show (24 : Int) = ((24 : Nat) : Int) by rfl, pow2_natCast]
      exact_mod_cast h
    have hi : ilog2 (n : ℚ) < 24 := pow2_lt_pow2_iff.mp hlt
    unfold f32 roundBinary
    rw [if_neg hq]
    simp only []
    obtain ⟨k, hk⟩ : ∃ k : Nat, max (ilog2 (n : ℚ) - ((24 - 1 : Nat) : Int)) (-149) = -(k : Int) := by
      refine ⟨(-(max (ilog2 (n : ℚ) - ((24 - 1 : Nat) : Int)) (-149))).toNat, ?_⟩
      have : max (ilog2 (n : ℚ) - ((24 - 1 : Nat) : Int)) (-149) ≤ 0 := by
        apply max_le <;> omega
      omega
    rw [hk]
    have hp : pow2 (-(k : Int)) = 1 / ((2 ^ k : Nat) : ℚ) := by
      rw [pow2_eq_zpow, zpow_neg, zpow_natCast]; push_cast; rw [one_div]
    rw [hp]
    have hpos : (0 : ℚ) < ((2 ^ k : Nat) : ℚ) := by positivity
    have e : (n : ℚ) / (1 / ((2 ^ k : Nat) : ℚ)) = (((n * 2 ^ k : Nat) : Int) : ℚ) := by
      push_cast; field_simp
    rw [e, roundHalfEven_intCast]
    push_cast
    field_simp

/-! ## The table and the scan of `derivedAQI25` -/

/-- The `float` values of the constants of `AQITable25`. -/
theorem AQITable25_values :
    AQITable25 =
      [ { pMin := 0, pRange := 12, aqMin := 0, aqRange := 50 },
        { pMin := 6343885 / 524288, pRange := 12268339 / 524288, aqMin := 51, aqRange := 49 },
        { pMin := 71 / 2, pRange := 6370099 / 262144, aqMin := 101, aqRange := 49 },
        { pMin := 111 / 2, pRange := 11128013 / 131072, aqMin := 151, aqRange := 49 },
        { pMin := 301 / 2, pRange := 13094093 / 131072, aqMin := 201, aqRange := 99 },
        { pMin := 501 / 2, pRange := 13094093 / 131072, aqMin := 301, aqRange := 99 },
        { pMin := 701 / 2, pRange := 8188723 / 32768, aqMin := 401, aqRange := 99 },
        { pMin := 1001 / 2, pRange := 12799987 / 128, aqMin := 501, aqRange := 498 } ] := by
  decide!

theorem AQITable25_decimal :
    AQITable25 = AQITable25Decimal.map
      (fun x => { pMin := floatLit x.1, pRange := floatLit x.2.1, aqMin := x.2.2.1,
                  aqRange := x.2.2.2 }) := rfl

theorem floatOfU16_eq (n : Nat) (h : n < 2 ^ 24) : floatOfU16 n = n := f32_natCast n h

theorem natCast_lt_iff (r k : Nat) (c : ℚ) (h1 : (k : ℚ) - 1 < c) (h2 : c ≤ k) :
    (r : ℚ) < c ↔ r < k := by
  constructor
  · intro h
    have : (r : ℚ) < k := lt_of_lt_of_le h h2
    exact_mod_cast this
  · intro h
    have : (r : ℚ) ≤ (k : ℚ) - 1 := by
      have : r + 1 ≤ k := h
      have : ((r + 1 : Nat) : ℚ) ≤ k := by exact_mod_cast this
      push_cast at this
      linarith
    linarith

/-- The scan of `derivedAQI25` selects the band the specification lists. -/
theorem rowIndex_eq_bandOf (r : Nat) (h : r < 2 ^ 24) : rowIndex r = bandOf r := by
  unfold rowIndex
  rw [floatOfU16_eq r h, AQITable25_values]
  simp only [scanFrom]
  have h0 := natCast_lt_iff r 0 0 (by norm_num) (by norm_num)
  have h1 := natCast_lt_iff r 13 (6343885 / 524288) (by norm_num) (by norm_num)
  have h2 := natCast_lt_iff r 36 (71 / 2) (by norm_num) (by norm_num)
  have h3 := natCast_lt_iff r 56 (111 / 2) (by norm_num) (by norm_num)
  have h4 := natCast_lt_iff r 151 (301 / 2) (by norm_num) (by norm_num)
  have h5 := natCast_lt_iff r 251 (501 / 2) (by norm_num) (by norm_num)
  have h6 := natCast_lt_iff r 351 (701 / 2) (by norm_num) (by norm_num)
  have h7 := natCast_lt_iff r 501 (1001 / 2) (by norm_num) (by norm_num)
  have hcases : r < 13 ∨ (13 ≤ r ∧ r < 36) ∨ (36 ≤ r ∧ r < 56) ∨ (56 ≤ r ∧ r < 151) ∨
      (151 ≤ r ∧ r < 251) ∨ (251 ≤ r ∧ r < 351) ∨ (351 ≤ r ∧ r < 501) ∨ 501 ≤ r := by omega
  unfold bandOf
  rcases hcases with c | c | c | c | c | c | c | c
  · rw [if_neg (fun x => absurd (h0.mp x) (by omega)), if_pos (h1.mpr (by omega)), if_pos (by omega)]
    norm_num
  · rw [if_neg (fun x => absurd (h0.mp x) (by omega)), if_neg (fun x => absurd (h1.mp x) (by omega)), if_pos (h2.mpr (by omega)), if_neg (by omega), if_pos (by omega)]
    norm_num
  · rw [if_neg (fun x => absurd (h0.mp x) (by omega)), if_neg (fun x => absurd (h1.mp x) (by omega)), if_neg (fun x => absurd (h2.mp x) (by omega)), if_pos (h3.mpr (by omega)), if_neg (by omega), if_neg (by omega), if_pos (by omega)]
    norm_num
  · rw [if_neg (fun x => absurd (h0.mp x) (by omega)), if_neg (fun x => absurd (h1.mp x) (by omega)), if_neg (fun x => absurd (h2.mp x) (by omega)), if_neg (fun x => absurd (h3.mp x) (by omega)), if_pos (h4.mpr (by omega)), if_neg (by omega), if_neg (by omega), if_neg (by omega), if_pos (by omega)]
    norm_num
  · rw [if_neg (fun x => absurd (h0.mp x) (by omega)), if_neg (fun x => absurd (h1.mp x) (by omega)), if_neg (fun x => absurd (h2.mp x) (by omega)), if_neg (fun x => absurd (h3.mp x) (by omega)), if_neg (fun x => absurd (h4.mp x) (by omega)), if_pos (h5.mpr (by omega)), if_neg (by omega), if_neg (by omega), if_neg (by omega), if_neg (by omega), if_pos (by omega)]
    norm_num
  · rw [if_neg (fun x => absurd (h0.mp x) (by omega)), if_neg (fun x => absurd (h1.mp x) (by omega)), if_neg (fun x => absurd (h2.mp x) (by omega)), if_neg (fun x => absurd (h3.mp x) (by omega)), if_neg (fun x => absurd (h4.mp x) (by omega)), if_neg (fun x => absurd (h5.mp x) (by omega)), if_pos (h6.mpr (by omega)), if_neg (by omega), if_neg (by omega), if_neg (by omega), if_neg (by omega), if_neg (by omega), if_pos (by omega)]
    norm_num
  · rw [if_neg (fun x => absurd (h0.mp x) (by omega)), if_neg (fun x => absurd (h1.mp x) (by omega)), if_neg (fun x => absurd (h2.mp x) (by omega)), if_neg (fun x => absurd (h3.mp x) (by omega)), if_neg (fun x => absurd (h4.mp x) (by omega)), if_neg (fun x => absurd (h5.mp x) (by omega)), if_neg (fun x => absurd (h6.mp x) (by omega)), if_pos (h7.mpr (by omega)), if_neg (by omega), if_neg (by omega), if_neg (by omega), if_neg (by omega), if_neg (by omega), if_neg (by omega), if_pos (by omega)]
    norm_num
  · rw [if_neg (fun x => absurd (h0.mp x) (by omega)), if_neg (fun x => absurd (h1.mp x) (by omega)), if_neg (fun x => absurd (h2.mp x) (by omega)), if_neg (fun x => absurd (h3.mp x) (by omega)), if_neg (fun x => absurd (h4.mp x) (by omega)), if_neg (fun x => absurd (h5.mp x) (by omega)), if_neg (fun x => absurd (h6.mp x) (by omega)), if_neg (fun x => absurd (h7.mp x) (by omega)), if_neg (by omega), if_neg (by omega), if_neg (by omega), if_neg (by omega), if_neg (by omega), if_neg (by omega), if_neg (by omega)]
    norm_num

theorem scanFrom_bounds (x : ℚ) (rows : List AQIRow) :
    ∀ i : Nat, i ≤ scanFrom x rows i ∧ scanFrom x rows i ≤ i + rows.length := by
  induction rows with
  | nil => intro i; simp [scanFrom]
  | cons row rows ih =>
    intro i
    simp only [scanFrom, List.length_cons]
    split
    · omega
    · obtain ⟨h1, h2⟩ := ih (i + 1)
      omega

/-- C13: for every reading the row index used by `derivedAQI25` after the scan and the
step back (`i--`) lies in 0..7: the scan never breaks at row 0 (no reading is below the
first floor 0.0), so the index does not underflow to -1, and the table access is in
bounds. -/
theorem C13_rowIndex_in_bounds (reading : Nat) :
    ¬ (floatOfU16 reading < (AQITable25.getD 0 ⟨0, 0, 0, 0⟩).pMin) ∧
    1 ≤ scanFrom (floatOfU16 reading) AQITable25 0 ∧
    0 ≤ rowIndex reading ∧ rowIndex reading ≤ 7 ∧
    ((rowIndex reading).toNat < AQITableLength25) ∧
    (AQITable25.get? (rowIndex reading).toNat).isSome = true := by
  have hx : 0 ≤ floatOfU16 reading := f32_nonneg _ (by positivity)
  have h0 : (AQITable25.getD 0 ⟨0, 0, 0, 0⟩).pMin = 0 := by
    rw [AQITable25_values]; rfl
  have hnot : ¬ (floatOfU16 reading < (AQITable25.getD 0 ⟨0, 0, 0, 0⟩).pMin) := by
    rw [h0]; exact not_lt.mpr hx
  have hlen : AQITable25.length = 8 := rfl
  have hscan : 1 ≤ scanFrom (floatOfU16 reading) AQITable25 0 ∧
      scanFrom (floatOfU16 reading) AQITable25 0 ≤ 8 := by
    constructor
    · rw [AQITable25_values]
      rw [scanFrom, if_neg (not_lt.mpr hx)]
      exact (scanFrom_bounds _ _ _).1
    · have := (scanFrom_bounds (floatOfU16 reading) AQITable25 0).2
      omega
  have hi : 0 ≤ rowIndex reading ∧ rowIndex reading ≤ 7 := by
    unfold rowIndex
    omega
  have hn : (rowIndex reading).toNat < AQITableLength25 := by
    unfold AQITableLength25
    omega
  refine ⟨hnot, hscan.1, hi.1, hi.2, hn, ?_⟩
  cases hg : AQITable25.get? (rowIndex reading).toNat with
  | none =>
    have := List.get?_eq_none.mp hg
    unfold AQITableLength25 at hn
    omega
  | some row => rfl

/-- C14, evaluated on the table of the code: `AQITable25` has exactly 8 rows and its
concentration floors increase strictly, but its rows are not contiguous. Row 2
(floor 35.5, width 24.3) reaches 59.8 and overlaps the next floor 55.5; row 3
(floor 55.5, width 84.9) ends at 140.4, more than 10 below the next floor 150.5; row 6
(floor 350.5, width 249.9) reaches 600.4 and overlaps the next floor 500.5. Rows 1, 4
and 5 do reach the next floor without overlap and end at most 0.1 below it. -/
theorem C14_table_rows_not_contiguous :
    AQITable25.length = 8 ∧
    List.Pairwise (fun a b => a < b) (AQITable25.map (fun row => row.pMin)) ∧
    (∀ row ∈ AQITable25.get? 2, ∀ next ∈ AQITable25.get? 3,
      next.pMin < row.pMin + row.pRange) ∧
    (∀ row ∈ AQITable25.get? 3, ∀ next ∈ AQITable25.get? 4,
      10 < next.pMin - (row.pMin + row.pRange)) ∧
    (∀ row ∈ AQITable25.get? 6, ∀ next ∈ AQITable25.get? 7,
      next.pMin < row.pMin + row.pRange) ∧
    (∀ i ∈ [1, 4, 5], ∀ row ∈ AQITable25.get? i, ∀ next ∈ AQITable25.get? (i + 1),
      row.pMin + row.pRange ≤ next.pMin ∧
      next.pMin - (row.pMin + row.pRange) ≤ 1 / 10) := by
  rw [AQITable25_values]
  refine ⟨rfl, ?_, ?_, ?_, ?_, ?_⟩
  · simp only [List.map, List.pairwise_cons, List.mem_cons, List.mem_singleton,
      List.not_mem_nil, forall_eq_or_imp, forall_eq, List.Pairwise.nil, and_true]
    norm_num
  · simp only [List.get?, Option.mem_def, Option.some.injEq, forall_eq']
    norm_num
  · simp only [List.get?, Option.mem_def, Option.some.injEq, forall_eq']
    norm_num
  · simp only [List.get?, Option.mem_def, Option.some.injEq, forall_eq']
    norm_num
  · simp only [List.mem_cons, List.mem_singleton, List.not_mem_nil, forall_eq_or_imp,
      forall_eq, List.get?, Option.mem_def, Option.some.injEq, forall_eq', or_false]
    norm_num

/-- C20, evaluated on the code: `derivedAQI25` is not monotone across the boundary
between readings 150 and 151: `derivedAQI25(150) = 205` and `derivedAQI25(151) = 201`. -/
theorem C20_not_monotone_at_150 :
    derivedAQI25 150 = some 205 ∧ derivedAQI25 151 = some 201 ∧
    rowIndex 150 = 3 ∧ rowIndex 151 = 4 := by
  decide!

/-- C11, as stated, fails: reading 35 is below the floor 35.5 of the third table row,
so the scan stops there and steps back to row 1, the second band, not to row 2; and the
result is not 99. -/
theorem C11_counterexample :
    rowIndex 35 ≠ 2 ∧ derivedAQI25 35 ≠ some 99 := by
  decide!

/-- C11, amended: `derivedAQI25(35)` falls in the second band, the table row with index
1 (floor 12.1, AQI floor 51, AQI width 49), and equals `(35 - floor) * aqRange / width +
aqFloor` for the constants of that row, computed in `float` and truncated toward zero.
With the width 23.4 stored in that row this is 98, which is also the integer part of
the exact value of `(35 - 12.1) * 49 / 23.4 + 51`. -/
theorem C11_derivedAQI25_35_second_band :
    rowIndex 35 = 1 ∧
    AQITable25.get? 1 = some { pMin := floatLit (121 / 10), pRange := floatLit (234 / 10),
                               aqMin := 51, aqRange := 49 } ∧
    derivedAQI25 35
      = truncToU16 (f32 (f32 (f32 (f32 (floatOfU16 35 - floatLit (121 / 10)) * floatOfU16 49)
          / floatLit (234 / 10)) + floatOfU16 51)) ∧
    derivedAQI25 35 = some 98 ∧
    ⌊((35 : ℚ) - 121 / 10) * 49 / (234 / 10) + 51⌋ = 98 := by
  decide!

/-! ## Accumulated rounding error of the interpolation -/

theorem f32_bounds (q : ℚ) (h : 0 ≤ q) :
    q - (q / 2 ^ 24 + 1 / 2 ^ 150) ≤ f32 q ∧ f32 q ≤ q + (q / 2 ^ 24 + 1 / 2 ^ 150) := by
  have he := f32_error q
  rw [abs_of_nonneg h, abs_le] at he
  constructor <;> linarith [he.1, he.2]

/-- The accumulated rounding error of the four `float` operations of `derivedAQI25`,
for `0 ≤ t ≤ R` and a divisor `B ≥ Bmin > 0`: the bounds `E1`, ..., `E4` follow the
four operations. -/
theorem float_formula_error (t B : ℚ) (c d : Nat) (R Bmin E1 E2 E3 E4 : ℚ)
    (ht0 : 0 ≤ t) (htR : t ≤ R) (hBmin : 0 < Bmin) (hB : Bmin ≤ B)
    (h1 : R / 2 ^ 24 + 1 / 2 ^ 150 ≤ E1)
    (h2 : (R + E1) * d / 2 ^ 24 + 1 / 2 ^ 150 + d * E1 ≤ E2)
    (h3 : (R * d + E2) / Bmin / 2 ^ 24 + 1 / 2 ^ 150 + E2 / Bmin ≤ E3)
    (h4 : (R * d / Bmin + E3 + c) / 2 ^ 24 + 1 / 2 ^ 150 + E3 ≤ E4) :
    |f32 (f32 (f32 (f32 t * d) / B) + c) - (t * d / B + c)| ≤ E4 := by
  have hBpos : 0 < B := lt_of_lt_of_le hBmin hB
  have hd0 : (0 : ℚ) ≤ d := by positivity
  have hc0 : (0 : ℚ) ≤ c := by positivity
  have hR0 : 0 ≤ R := le_trans ht0 htR
  have hη : (0 : ℚ) ≤ 1 / 2 ^ 150 := by positivity
  -- first operation
  obtain ⟨a1, b1⟩ := f32_bounds t ht0
  have x1n : 0 ≤ f32 t := f32_nonneg t ht0
  have t24 : t / 2 ^ 24 ≤ R / 2 ^ 24 := by gcongr
  have hE1 : 0 ≤ E1 := le_trans (by positivity) h1
  have l1 : t - E1 ≤ f32 t := by linarith
  have u1 : f32 t ≤ t + E1 := by linarith
  -- second operation
  have q2n : 0 ≤ f32 t * d := mul_nonneg x1n hd0
  obtain ⟨a2, b2⟩ := f32_bounds (f32 t * d) q2n
  have x2n : 0 ≤ f32 (f32 t * d) := f32_nonneg _ q2n
  have q2u : f32 t * d ≤ (R + E1) * d := by
    apply mul_le_mul_of_nonneg_right _ hd0
    linarith
  have q224 : f32 t * d / 2 ^ 24 ≤ (R + E1) * d / 2 ^ 24 := by gcongr
  have m2l : (t - E1) * d ≤ f32 t * d := mul_le_mul_of_nonneg_right l1 hd0
  have m2u : f32 t * d ≤ (t + E1) * d := mul_le_mul_of_nonneg_right u1 hd0
  have l2 : t * d - E2 ≤ f32 (f32 t * d) := by linarith
  have u2 : f32 (f32 t * d) ≤ t * d + E2 := by linarith
  have hE2 : 0 ≤ E2 := by
    have : 0 ≤ (R + E1) * d / 2 ^ 24 := by positivity
    have : 0 ≤ (d : ℚ) * E1 := by positivity
    linarith
  have td : t * d ≤ R * d := mul_le_mul_of_nonneg_right htR hd0
  -- third operation
  have q3n : 0 ≤ f32 (f32 t * d) / B := div_nonneg x2n hBpos.le
  obtain ⟨a3, b3⟩ := f32_bounds (f32 (f32 t * d) / B) q3n
  have x3n : 0 ≤ f32 (f32 (f32 t * d) / B) := f32_nonneg _ q3n
  have q3u : f32 (f32 t * d) / B ≤ (R * d + E2) / Bmin := by
    calc f32 (f32 t * d) / B ≤ (R * d + E2) / B := by
          apply div_le_div_of_nonneg_right _ hBpos.le
          linarith
      _ ≤ (R * d + E2) / Bmin := by
          apply div_le_div_of_nonneg_left _ hBmin hB
          positivity
  have q324 : f32 (f32 t * d) / B / 2 ^ 24 ≤ (R * d + E2) / Bmin / 2 ^ 24 := by gcongr
  have e2B : E2 / B ≤ E2 / Bmin := div_le_div_of_nonneg_left hE2 hBmin hB
  have d3l : (t * d - E2) / B ≤ f32 (f32 t * d) / B :=
    div_le_div_of_nonneg_right l2 hBpos.le
  have d3u : f32 (f32 t * d) / B ≤ (t * d + E2) / B :=
    div_le_div_of_nonneg_right u2 hBpos.le
  have hE3 : 0 ≤ E3 := by
    have : 0 ≤ (R * d + E2) / Bmin / 2 ^ 24 := by positivity
    have : 0 ≤ E2 / Bmin := by positivity
    linarith
  have l3 : t * d / B - E3 ≤ f32 (f32 (f32 t * d) / B) := by
    have : (t * d - E2) / B = t * d / B - E2 / B := sub_div _ _ _
    linarith
  have u3 : f32 (f32 (f32 t * d) / B) ≤ t * d / B + E3 := by
    have : (t * d + E2) / B = t * d / B + E2 / B := add_div _ _ _
    linarith
  have tdB : t * d / B ≤ R * d / Bmin := by
    calc t * d / B ≤ R * d / B := div_le_div_of_nonneg_right td hBpos.le
      _ ≤ R * d / Bmin := div_le_div_of_nonneg_left (by positivity) hBmin hB
  -- fourth operation
  have q4n : 0 ≤ f32 (f32 (f32 t * d) / B) + c := add_nonneg x3n hc0
  obtain ⟨a4, b4⟩ := f32_bounds (f32 (f32 (f32 t * d) / B) + c) q4n
  have q424 : (f32 (f32 (f32 t * d) / B) + c) / 2 ^ 24
      ≤ (R * d / Bmin + E3 + c) / 2 ^ 24 := by
    apply div_le_div_of_nonneg_right _ (by positivity)
    linarith
  rw [abs_le]
  constructor <;> linarith

/-- When `x` is within `1/4096` of `K + rem / B10` and the fraction `rem / B10` keeps
that distance from 0 and from 1, the truncation of `x` is `K`. -/
theorem truncToU16_of_margin (x : ℚ) (K rem B10 : Nat) (hK : K < 65536)
    (hx : |x - ((K : ℚ) + (rem : ℚ) / (B10 : ℚ))| ≤ 1 / 4096)
    (h1 : B10 ≤ 4096 * rem) (h2 : 4096 * rem + B10 < 4096 * B10) :
    truncToU16 x = some K := by
  have hB : (0 : ℚ) < (B10 : ℚ) := by
    have : 0 < B10 := by omega
    exact_mod_cast this
  have h1q : (B10 : ℚ) ≤ 4096 * (rem : ℚ) := by exact_mod_cast h1
  have h2q : 4096 * (rem : ℚ) + (B10 : ℚ) < 4096 * (B10 : ℚ) := by exact_mod_cast h2
  have f1 : (1 : ℚ) / 4096 ≤ (rem : ℚ) / (B10 : ℚ) := by
    rw [div_le_div_iff₀ (by norm_num) hB]; linarith
  have f2 : (rem : ℚ) / (B10 : ℚ) + 1 / 4096 < 1 := by
    have : (rem : ℚ) / (B10 : ℚ) < 4095 / 4096 := by
      rw [div_lt_div_iff₀ hB (by norm_num)]; linarith
    linarith
  rw [abs_le] at hx
  have hlo : (K : ℚ) ≤ x := by linarith [hx.1]
  have hhi : x < (K : ℚ) + 1 := by linarith [hx.2]
  have hx0 : 0 ≤ x := le_trans (by positivity) hlo
  have hfl : ⌊x⌋ = (K : Int) := by
    rw [Int.floor_eq_iff]
    constructor
    · exact_mod_cast hlo
    · exact_mod_cast hhi
  unfold truncToU16
  simp only [if_pos hx0, hfl]
  rw [if_pos ⟨by omega, by omega⟩]
  simp

/-- Soundness of the margin test for one band: from the error bounds of the band the
`float` computation of `derivedAQI25` truncates to the integer part of the decimal
formula `(10 r - A10) * aqRange / B10 + aqMin`. -/
theorem band_sound (r : Nat) (row : AQIRow) (A10 B10 : Nat)
    (R Bmin E1 E2 E3 E4 e2 : ℚ) (hr : r < 65536)
    (hget : AQITable25.get? (bandOf r) = some row)
    (hc : row.aqMin < 2 ^ 24) (hd : row.aqRange < 2 ^ 24)
    (ht0 : 0 ≤ (r : ℚ) - row.pMin) (htR : (r : ℚ) - row.pMin ≤ R)
    (hBmin : 0 < Bmin) (hB : Bmin ≤ row.pRange)
    (h1 : R / 2 ^ 24 + 1 / 2 ^ 150 ≤ E1)
    (h2 : (R + E1) * row.aqRange / 2 ^ 24 + 1 / 2 ^ 150 + row.aqRange * E1 ≤ E2)
    (h3 : (R * row.aqRange + E2) / Bmin / 2 ^ 24 + 1 / 2 ^ 150 + E2 / Bmin ≤ E3)
    (h4 : (R * row.aqRange / Bmin + E3 + row.aqMin) / 2 ^ 24 + 1 / 2 ^ 150 + E3 ≤ E4)
    (hdec : |((r : ℚ) - row.pMin) * row.aqRange / row.pRange
        - (((10 * r - A10) * row.aqRange : Nat) : ℚ) / (B10 : ℚ)| ≤ e2)
    (hsum : E4 + e2 ≤ 1 / 4096)
    (hK : (10 * r - A10) * row.aqRange / B10 + row.aqMin < 65536)
    (hm1 : B10 ≤ 4096 * ((10 * r - A10) * row.aqRange % B10))
    (hm2 : 4096 * ((10 * r - A10) * row.aqRange % B10) + B10 < 4096 * B10) :
    derivedAQI25 r = some ((10 * r - A10) * row.aqRange / B10 + row.aqMin) := by
  have hri := rowIndex_eq_bandOf r (by omega)
  have hB0 : 0 < B10 := by omega
  have hBq : (0 : ℚ) < (B10 : ℚ) := by exact_mod_cast hB0
  unfold derivedAQI25
  simp only [hri]
  rw [if_neg (by omega), Int.toNat_ofNat, hget]
  simp only []
  rw [floatOfU16_eq r (by omega), floatOfU16_eq _ hc, floatOfU16_eq _ hd]
  apply truncToU16_of_margin _ _ ((10 * r - A10) * row.aqRange % B10) B10 hK _ hm1 hm2
  have herr := float_formula_error ((r : ℚ) - row.pMin) row.pRange row.aqMin row.aqRange
    R Bmin E1 E2 E3 E4 ht0 htR hBmin hB h1 h2 h3 h4
  have hsplit : (((10 * r - A10) * row.aqRange : Nat) : ℚ) / (B10 : ℚ)
      = (((10 * r - A10) * row.aqRange / B10 : Nat) : ℚ)
        + (((10 * r - A10) * row.aqRange % B10 : Nat) : ℚ) / (B10 : ℚ) := by
    have hdm := Nat.div_add_mod ((10 * r - A10) * row.aqRange) B10
    have hq : (((10 * r - A10) * row.aqRange : Nat) : ℚ)
        = (B10 : ℚ) * (((10 * r - A10) * row.aqRange / B10 : Nat) : ℚ)
          + (((10 * r - A10) * row.aqRange % B10 : Nat) : ℚ) := by
      exact_mod_cast hdm.symm
    rw [hq]
    field_simp
    ring
  rw [Nat.cast_add]
  rw [abs_le] at herr hdec ⊢
  constructor <;> linarith [herr.1, herr.2, hdec.1, hdec.2]

/-! ## The value of `derivedAQI25` on all readings -/

theorem marginOK_spec (A10 B10 d r : Nat) (h : marginOK A10 B10 d r = true) :
    B10 ≤ 4096 * ((10 * r - A10) * d % B10) ∧
    4096 * ((10 * r - A10) * d % B10) + B10 < 4096 * B10 := by
  unfold marginOK at h
  rw [Bool.and_eq_true] at h
  exact ⟨Nat.le_of_ble_eq_true h.1, Nat.le_of_ble_eq_true h.2⟩

theorem checkRange_sound (A10 B10 d : Nat) :
    ∀ (n lo : Nat), checkRange A10 B10 d lo n = true →
      ∀ r : Nat, lo ≤ r → r < lo + n →
        marginOK A10 B10 d r = true ∨ r ∈ aqiExceptions := by
  intro n
  induction n with
  | zero => intro lo _ r h1 h2; omega
  | succ k ih =>
    intro lo h r h1 h2
    simp only [checkRange, Bool.and_eq_true, Bool.or_eq_true] at h
    by_cases hr : r = lo
    · subst hr
      rcases h.1 with h3 | h3
      · exact Or.inl h3
      · exact Or.inr (by simpa using h3)
    · exact ih (lo + 1) h.2 r (by omega) (by omega)

theorem checkRange_band0 :
    checkRange 0 120 50 0 13 = true := by
  decide!

theorem checkRange_band1 :
    checkRange 121 234 49 13 23 = true := by
  decide!

theorem checkRange_band2 :
    checkRange 355 243 49 36 20 = true := by
  decide!

theorem checkRange_band3 :
    checkRange 555 849 49 56 95 = true := by
  decide!

theorem checkRange_band4 :
    checkRange 1505 999 99 151 100 = true := by
  decide!

theorem checkRange_band5 :
    checkRange 2505 999 99 251 100 = true := by
  decide!

theorem checkRange_band6 :
    checkRange 3505 2499 99 351 150 = true := by
  decide!

theorem aqiExceptions_ok :
    ∀ r ∈ aqiExceptions, derivedAQI25 r = some ⌊exactFormula r⌋.toNat := by
  decide!

theorem floor_decimal (r A10 B10 c d : Nat) (hA : A10 ≤ 10 * r) (hB : 0 < B10) :
    ⌊((r : ℚ) - (A10 : ℚ) / 10) * (d : ℚ) / ((B10 : ℚ) / 10) + (c : ℚ)⌋
      = (((10 * r - A10) * d / B10 + c : Nat) : Int) := by
  have hBq : (0 : ℚ) < (B10 : ℚ) := by exact_mod_cast hB
  have e : ((r : ℚ) - (A10 : ℚ) / 10) * (d : ℚ) / ((B10 : ℚ) / 10)
      = (((10 * r - A10) * d : Nat) : ℚ) / ((B10 : Nat) : ℚ) := by
    rw [Nat.cast_mul, Nat.cast_sub hA]
    push_cast
    rw [div_eq_div_iff (by positivity) (by positivity)]
    ring
  rw [e, Int.floor_add_nat, Rat.floor_natCast_div_natCast]
  push_cast
  rfl

theorem bandOf_eq_0 (r : Nat) (hlo : 0 ≤ r) (hhi : r ≤ 12) : bandOf r = 0 := by
  unfold bandOf
  rw [if_pos (by omega)]

theorem band0_sound (r : Nat) (hlo : 0 ≤ r) (hhi : r ≤ 12)
    (hm : marginOK 0 120 50 r = true) :
    derivedAQI25 r = some ((10 * r - 0) * 50 / 120 + 0) := by
  have hb := bandOf_eq_0 r hlo hhi
  have hget : AQITable25.get? (bandOf r)
      = some { pMin := 0, pRange := 12, aqMin := 0, aqRange := 50 } := by
    rw [hb, AQITable25_values]; rfl
  have hloq : (0 : ℚ) ≤ (r : ℚ) := by exact_mod_cast hlo
  have hhiq : (r : ℚ) ≤ (12 : ℚ) := by exact_mod_cast hhi
  obtain ⟨hm1, hm2⟩ := marginOK_spec _ _ _ _ hm
  have hcast : (((10 * r - 0) * 50 : Nat) : ℚ) = (10 * (r : ℚ) - 0) * 50 := by
    rw [Nat.cast_mul, Nat.cast_sub (by omega)]
    push_cast
    ring
  refine band_sound r
    { pMin := 0, pRange := 12, aqMin := 0, aqRange := 50 }
    0 120 (12) (12) (12582913 / 17592186044416) (157286411 / 2199023255552)
    (78643207 / 8796093022208) (26214403 / 2199023255552) (0)
    (by omega) hget (by norm_num) (by norm_num) ?_ ?_ (by norm_num) (by norm_num)
    (by norm_num) (by norm_num) (by norm_num) (by norm_num) ?_ (by norm_num) ?_
    hm1 hm2
  · show (0 : ℚ) ≤ (r : ℚ) - 0
    linarith
  · show (r : ℚ) - 0 ≤ 12
    linarith
  · show |((r : ℚ) - 0) * ((50 : Nat) : ℚ) / (12)
        - (((10 * r - 0) * 50 : Nat) : ℚ) / ((120 : Nat) : ℚ)| ≤ 0
    rw [hcast, abs_le]
    push_cast
    constructor <;> linarith
  · show (10 * r - 0) * 50 / 120 + 0 < 65536
    omega

theorem bandOf_eq_1 (r : Nat) (hlo : 13 ≤ r) (hhi : r ≤ 35) : bandOf r = 1 := by
  unfold bandOf
  rw [if_neg (by omega), if_pos (by omega)]

theorem band1_sound (r : Nat) (hlo : 13 ≤ r) (hhi : r ≤ 35)
    (hm : marginOK 121 234 49 r = true) :
    derivedAQI25 r = some ((10 * r - 121) * 49 / 234 + 51) := by
  have hb := bandOf_eq_1 r hlo hhi
  have hget : AQITable25.get? (bandOf r)
      = some { pMin := 6343885 / 524288, pRange := 12268339 / 524288, aqMin := 51, aqRange := 49 } := by
    rw [hb, AQITable25_values]; rfl
  have hloq : (13 : ℚ) ≤ (r : ℚ) := by exact_mod_cast hlo
  have hhiq : (r : ℚ) ≤ (35 : ℚ) := by exact_mod_cast hhi
  obtain ⟨hm1, hm2⟩ := marginOK_spec _ _ _ _ hm
  have hcast : (((10 * r - 121) * 49 : Nat) : ℚ) = (10 * (r : ℚ) - 121) * 49 := by
    rw [Nat.cast_mul, Nat.cast_sub (by omega)]
    push_cast
    ring
  refine band_sound r
    { pMin := 6343885 / 524288, pRange := 12268339 / 524288, aqMin := 51, aqRange := 49 }
    121 234 (23) (23) (24117249 / 17592186044416) (295436303 / 2199023255552)
    (38535171 / 4398046511104) (129499147 / 8796093022208) (13512223 / 17592186044416)
    (by omega) hget (by norm_num) (by norm_num) ?_ ?_ (by norm_num) (by norm_num)
    (by norm_num) (by norm_num) (by norm_num) (by norm_num) ?_ (by norm_num) ?_
    hm1 hm2
  · show (0 : ℚ) ≤ (r : ℚ) - 6343885 / 524288
    linarith
  · show (r : ℚ) - 6343885 / 524288 ≤ 23
    linarith
  · show |((r : ℚ) - 6343885 / 524288) * ((49 : Nat) : ℚ) / (12268339 / 524288)
        - (((10 * r - 121) * 49 : Nat) : ℚ) / ((234 : Nat) : ℚ)| ≤ 13512223 / 17592186044416
    rw [hcast, abs_le]
    push_cast
    constructor <;> linarith
  · show (10 * r - 121) * 49 / 234 + 51 < 65536
    omega

theorem bandOf_eq_2 (r : Nat) (hlo : 36 ≤ r) (hhi : r ≤ 55) : bandOf r = 2 := by
  unfold bandOf
  rw [if_neg (by omega), if_neg (by omega), if_pos (by omega)]

theorem band2_sound (r : Nat) (hlo : 36 ≤ r) (hhi : r ≤ 55)
    (hm : marginOK 355 243 49 r = true) :
    derivedAQI25 r = some ((10 * r - 355) * 49 / 243 + 101) := by
  have hb := bandOf_eq_2 r hlo hhi
  have hget : AQITable25.get? (bandOf r)
      = some { pMin := 71 / 2, pRange := 6370099 / 262144, aqMin := 101, aqRange := 49 } := by
    rw [hb, AQITable25_values]; rfl
  have hloq : (36 : ℚ) ≤ (r : ℚ) := by exact_mod_cast hlo
  have hhiq : (r : ℚ) ≤ (55 : ℚ) := by exact_mod_cast hhi
  obtain ⟨hm1, hm2⟩ := marginOK_spec _ _ _ _ hm
  have hcast : (((10 * r - 355) * 49 : Nat) : ℚ) = (10 * (r : ℚ) - 355) * 49 := by
    rw [Nat.cast_mul, Nat.cast_sub (by omega)]
    push_cast
    ring
  refine band_sound r
    { pMin := 71 / 2, pRange := 6370099 / 262144, aqMin := 101, aqRange := 49 }
    355 243 (20) (24) (20971521 / 17592186044416) (2055209071 / 17592186044416)
    (64225285 / 8796093022208) (277173607 / 17592186044416) (21718411 / 17592186044416)
    (by omega) hget (by norm_num) (by norm_num) ?_ ?_ (by norm_num) (by norm_num)
    (by norm_num) (by norm_num) (by norm_num) (by norm_num) ?_ (by norm_num) ?_
    hm1 hm2
  · show (0 : ℚ) ≤ (r : ℚ) - 71 / 2
    linarith
  · show (r : ℚ) - 71 / 2 ≤ 20
    linarith
  · show |((r : ℚ) - 71 / 2) * ((49 : Nat) : ℚ) / (6370099 / 262144)
        - (((10 * r - 355) * 49 : Nat) : ℚ) / ((243 : Nat) : ℚ)| ≤ 21718411 / 17592186044416
    rw [hcast, abs_le]
    push_cast
    constructor <;> linarith
  · show (10 * r - 355) * 49 / 243 + 101 < 65536
    omega

theorem bandOf_eq_3 (r : Nat) (hlo : 56 ≤ r) (hhi : r ≤ 150) : bandOf r = 3 := by
  unfold bandOf
  rw [if_neg (by omega), if_neg (by omega), if_neg (by omega), if_pos (by omega)]

theorem band3_sound (r : Nat) (hlo : 56 ≤ r) (hhi : r ≤ 150)
    (hm : marginOK 555 849 49 r = true) :
    derivedAQI25 r = some ((10 * r - 555) * 49 / 849 + 151) := by
  have hb := bandOf_eq_3 r hlo hhi
  have hget : AQITable25.get? (bandOf r)
      = some { pMin := 111 / 2, pRange := 11128013 / 131072, aqMin := 151, aqRange := 49 } := by
    rw [hb, AQITable25_values]; rfl
  have hloq : (56 : ℚ) ≤ (r : ℚ) := by exact_mod_cast hlo
  have hhiq : (r : ℚ) ≤ (150 : ℚ) := by exact_mod_cast hhi
  obtain ⟨hm1, hm2⟩ := marginOK_spec _ _ _ _ hm
  have hcast : (((10 * r - 555) * 49 : Nat) : ℚ) = (10 * (r : ℚ) - 555) * 49 := by
    rw [Nat.cast_mul, Nat.cast_sub (by omega)]
    push_cast
    ring
  refine band_sound r
    { pMin := 111 / 2, pRange := 11128013 / 131072, aqMin := 151, aqRange := 49 }
    555 849 (95) (84) (99614721 / 17592186044416) (2440560725 / 4398046511104)
    (174325771 / 17592186044416) (390769345 / 17592186044416) (17244571 / 17592186044416)
    (by omega) hget (by norm_num) (by norm_num) ?_ ?_ (by norm_num) (by norm_num)
    (by norm_num) (by norm_num) (by norm_num) (by norm_num) ?_ (by norm_num) ?_
    hm1 hm2
  · show (0 : ℚ) ≤ (r : ℚ) - 111 / 2
    linarith
  · show (r : ℚ) - 111 / 2 ≤ 95
    linarith
  · show |((r : ℚ) - 111 / 2) * ((49 : Nat) : ℚ) / (11128013 / 131072)
        - (((10 * r - 555) * 49 : Nat) : ℚ) / ((849 : Nat) : ℚ)| ≤ 17244571 / 17592186044416
    rw [hcast, abs_le]
    push_cast
    constructor <;> linarith
  · show (10 * r - 555) * 49 / 849 + 151 < 65536
    omega

theorem bandOf_eq_4 (r : Nat) (hlo : 151 ≤ r) (hhi : r ≤ 250) : bandOf r = 4 := by
  unfold bandOf
  rw [if_neg (by omega), if_neg (by omega), if_neg (by omega), if_neg (by omega), if_pos (by omega)]

theorem band4_sound (r : Nat) (hlo : 151 ≤ r) (hhi : r ≤ 250)
    (hm : marginOK 1505 999 99 r = true) :
    derivedAQI25 r = some ((10 * r - 1505) * 99 / 999 + 201) := by
  have hb := bandOf_eq_4 r hlo hhi
  have hget : AQITable25.get? (bandOf r)
      = some { pMin := 301 / 2, pRange := 13094093 / 131072, aqMin := 201, aqRange := 99 } := by
    rw [hb, AQITable25_values]; rfl
  have hloq : (151 : ℚ) ≤ (r : ℚ) := by exact_mod_cast hlo
  have hhiq : (r : ℚ) ≤ (250 : ℚ) := by exact_mod_cast hhi
  obtain ⟨hm1, hm2⟩ := marginOK_spec _ _ _ _ hm
  have hcast : (((10 * r - 1505) * 99 : Nat) : ℚ) = (10 * (r : ℚ) - 1505) * 99 := by
    rw [Nat.cast_mul, Nat.cast_sub (by omega)]
    push_cast
    ring
  refine band_sound r
    { pMin := 301 / 2, pRange := 13094093 / 131072, aqMin := 201, aqRange := 99 }
    1505 999 (100) (99) (104857601 / 17592186044416) (10380902759 / 8796093022208)
    (78643205 / 4398046511104) (630194215 / 17592186044416) (26495199 / 17592186044416)
    (by omega) hget (by norm_num) (by norm_num) ?_ ?_ (by norm_num) (by norm_num)
    (by norm_num) (by norm_num) (by norm_num) (by norm_num) ?_ (by norm_num) ?_
    hm1 hm2
  · show (0 : ℚ) ≤ (r : ℚ) - 301 / 2
    linarith
  · show (r : ℚ) - 301 / 2 ≤ 100
    linarith
  · show |((r : ℚ) - 301 / 2) * ((99 : Nat) : ℚ) / (13094093 / 131072)
        - (((10 * r - 1505) * 99 : Nat) : ℚ) / ((999 : Nat) : ℚ)| ≤ 26495199 / 17592186044416
    rw [hcast, abs_le]
    push_cast
    constructor <;> linarith
  · show (10 * r - 1505) * 99 / 999 + 201 < 65536
    omega

theorem bandOf_eq_5 (r : Nat) (hlo : 251 ≤ r) (hhi : r ≤ 350) : bandOf r = 5 := by
  unfold bandOf
  rw [if_neg (by omega), if_neg (by omega), if_neg (by omega), if_neg (by omega), if_neg (by omega), if_pos (by omega)]

theorem band5_sound (r : Nat) (hlo : 251 ≤ r) (hhi : r ≤ 350)
    (hm : marginOK 2505 999 99 r = true) :
    derivedAQI25 r = some ((10 * r - 2505) * 99 / 999 + 301) := by
  have hb := bandOf_eq_5 r hlo hhi
  have hget : AQITable25.get? (bandOf r)
      = some { pMin := 501 / 2, pRange := 13094093 / 131072, aqMin := 301, aqRange := 99 } := by
    rw [hb, AQITable25_values]; rfl
  have hloq : (251 : ℚ) ≤ (r : ℚ) := by exact_mod_cast hlo
  have hhiq : (r : ℚ) ≤ (350 : ℚ) := by exact_mod_cast hhi
  obtain ⟨hm1, hm2⟩ := marginOK_spec _ _ _ _ hm
  have hcast : (((10 * r - 2505) * 99 : Nat) : ℚ) = (10 * (r : ℚ) - 2505) * 99 := by
    rw [Nat.cast_mul, Nat.cast_sub (by omega)]
    push_cast
    ring
  refine band_sound r
    { pMin := 501 / 2, pRange := 13094093 / 131072, aqMin := 301, aqRange := 99 }
    2505 999 (100) (99) (104857601 / 17592186044416) (10380902759 / 8796093022208)
    (78643205 / 4398046511104) (735051815 / 17592186044416) (26495199 / 17592186044416)
    (by omega) hget (by norm_num) (by norm_num) ?_ ?_ (by norm_num) (by norm_num)
    (by norm_num) (by norm_num) (by norm_num) (by norm_num) ?_ (by norm_num) ?_
    hm1 hm2
  · show (0 : ℚ) ≤ (r : ℚ) - 501 / 2
    linarith
  · show (r : ℚ) - 501 / 2 ≤ 100
    linarith
  · show |((r : ℚ) - 501 / 2) * ((99 : Nat) : ℚ) / (13094093 / 131072)
        - (((10 * r - 2505) * 99 : Nat) : ℚ) / ((999 : Nat) : ℚ)| ≤ 26495199 / 17592186044416
    rw [hcast, abs_le]
    push_cast
    constructor <;> linarith
  · show (10 * r - 2505) * 99 / 999 + 301 < 65536
    omega

theorem bandOf_eq_6 (r : Nat) (hlo : 351 ≤ r) (hhi : r ≤ 500) : bandOf r = 6 := by
  unfold bandOf
  rw [if_neg (by omega), if_neg (by omega), if_neg (by omega), if_neg (by omega), if_neg (by omega), if_neg (by omega), if_pos (by omega)]

theorem band6_sound (r : Nat) (hlo : 351 ≤ r) (hhi : r ≤ 500)
    (hm : marginOK 3505 2499 99 r = true) :
    derivedAQI25 r = some ((10 * r - 3505) * 99 / 2499 + 401) := by
  have hb := bandOf_eq_6 r hlo hhi
  have hget : AQITable25.get? (bandOf r)
      = some { pMin := 701 / 2, pRange := 8188723 / 32768, aqMin := 401, aqRange := 99 } := by
    rw [hb, AQITable25_values]; rfl
  have hloq : (351 : ℚ) ≤ (r : ℚ) := by exact_mod_cast hlo
  have hhiq : (r : ℚ) ≤ (500 : ℚ) := by exact_mod_cast hhi
  obtain ⟨hm1, hm2⟩ := marginOK_spec _ _ _ _ hm
  have hcast : (((10 * r - 3505) * 99 : Nat) : ℚ) = (10 * (r : ℚ) - 3505) * 99 := by
    rw [Nat.cast_mul, Nat.cast_sub (by omega)]
    push_cast
    ring
  refine band_sound r
    { pMin := 701 / 2, pRange := 8188723 / 32768, aqMin := 401, aqRange := 99 }
    3505 2499 (150) (249) (157286401 / 17592186044416) (7785677057 / 4398046511104)
    (93803341 / 8796093022208) (335310613 / 8796093022208) (6361855 / 4398046511104)
    (by omega) hget (by norm_num) (by norm_num) ?_ ?_ (by norm_num) (by norm_num)
    (by norm_num) (by norm_num) (by norm_num) (by norm_num) ?_ (by norm_num) ?_
    hm1 hm2
  · show (0 : ℚ) ≤ (r : ℚ) - 701 / 2
    linarith
  · show (r : ℚ) - 701 / 2 ≤ 150
    linarith
  · show |((r : ℚ) - 701 / 2) * ((99 : Nat) : ℚ) / (8188723 / 32768)
        - (((10 * r - 3505) * 99 : Nat) : ℚ) / ((2499 : Nat) : ℚ)| ≤ 6361855 / 4398046511104
    rw [hcast, abs_le]
    push_cast
    constructor <;> linarith
  · show (10 * r - 3505) * 99 / 2499 + 401 < 65536
    omega

theorem bandOf_eq_7 (r : Nat) (hlo : 501 ≤ r) (hhi : r ≤ 65535) : bandOf r = 7 := by
  unfold bandOf
  rw [if_neg (by omega), if_neg (by omega), if_neg (by omega), if_neg (by omega), if_neg (by omega), if_neg (by omega), if_neg (by omega)]

theorem band7_sound (r : Nat) (hlo : 501 ≤ r) (hhi : r ≤ 65535)
    (hm : marginOK 5005 999999 498 r = true) :
    derivedAQI25 r = some ((10 * r - 5005) * 498 / 999999 + 501) := by
  have hb := bandOf_eq_7 r hlo hhi
  have hget : AQITable25.get? (bandOf r)
      = some { pMin := 1001 / 2, pRange := 12799987 / 128, aqMin := 501, aqRange := 498 } := by
    rw [hb, AQITable25_values]; rfl
  have hloq : (501 : ℚ) ≤ (r : ℚ) := by exact_mod_cast hlo
  have hhiq : (r : ℚ) ≤ (65535 : ℚ) := by exact_mod_cast hhi
  obtain ⟨hm1, hm2⟩ := marginOK_spec _ _ _ _ hm
  have hcast : (((10 * r - 5005) * 498 : Nat) : ℚ) = (10 * (r : ℚ) - 5005) * 498 := by
    rw [Nat.cast_mul, Nat.cast_sub (by omega)]
    push_cast
    ring
  refine band_sound r
    { pMin := 1001 / 2, pRange := 12799987 / 128, aqMin := 501, aqRange := 498 }
    5005 999999 (65035) (99999) (68194140161 / 17592186044416) (67921365624073 / 17592186044416)
    (63676919 / 1099511627776) (1883777555 / 17592186044416) (89025385 / 17592186044416)
    (by omega) hget (by norm_num) (by norm_num) ?_ ?_ (by norm_num) (by norm_num)
    (by norm_num) (by norm_num) (by norm_num) (by norm_num) ?_ (by norm_num) ?_
    hm1 hm2
  · show (0 : ℚ) ≤ (r : ℚ) - 1001 / 2
    linarith
  · show (r : ℚ) - 1001 / 2 ≤ 65035
    linarith
  · show |((r : ℚ) - 1001 / 2) * ((498 : Nat) : ℚ) / (12799987 / 128)
        - (((10 * r - 5005) * 498 : Nat) : ℚ) / ((999999 : Nat) : ℚ)| ≤ 89025385 / 17592186044416
    rw [hcast, abs_le]
    push_cast
    constructor <;> linarith
  · show (10 * r - 5005) * 498 / 999999 + 501 < 65536
    omega

theorem exactFormula_band0 (r : Nat) (hlo : 0 ≤ r) (hhi : r ≤ 12) :
    ⌊exactFormula r⌋.toNat = (10 * r - 0) * 50 / 120 + 0 := by
  have hb := bandOf_eq_0 r hlo hhi
  have e : exactFormula r
      = ((r : ℚ) - ((0 : Nat) : ℚ) / 10) * ((50 : Nat) : ℚ)
          / (((120 : Nat) : ℚ) / 10) + ((0 : Nat) : ℚ) := by
    unfold exactFormula
    rw [hb]
    simp only [AQITable25Decimal, List.get?]
    norm_num
  rw [e, floor_decimal r 0 120 0 50 (by omega) (by norm_num), Int.toNat_ofNat]

theorem derivedAQI25_exact_band0 (r : Nat) (hlo : 0 ≤ r) (hhi : r ≤ 12) :
    derivedAQI25 r = some ⌊exactFormula r⌋.toNat := by
  rcases checkRange_sound _ _ _ _ _ checkRange_band0 r hlo (by omega) with hm | hex
  · rw [exactFormula_band0 r hlo hhi]
    exact band0_sound r hlo hhi hm
  · exact aqiExceptions_ok r hex

theorem exactFormula_band1 (r : Nat) (hlo : 13 ≤ r) (hhi : r ≤ 35) :
    ⌊exactFormula r⌋.toNat = (10 * r - 121) * 49 / 234 + 51 := by
  have hb := bandOf_eq_1 r hlo hhi
  have e : exactFormula r
      = ((r : ℚ) - ((121 : Nat) : ℚ) / 10) * ((49 : Nat) : ℚ)
          / (((234 : Nat) : ℚ) / 10) + ((51 : Nat) : ℚ) := by
    unfold exactFormula
    rw [hb]
    simp only [AQITable25Decimal, List.get?]
    norm_num
  rw [e, floor_decimal r 121 234 51 49 (by omega) (by norm_num), Int.toNat_ofNat]

theorem derivedAQI25_exact_band1 (r : Nat) (hlo : 13 ≤ r) (hhi : r ≤ 35) :
    derivedAQI25 r = some ⌊exactFormula r⌋.toNat := by
  rcases checkRange_sound _ _ _ _ _ checkRange_band1 r hlo (by omega) with hm | hex
  · rw [exactFormula_band1 r hlo hhi]
    exact band1_sound r hlo hhi hm
  · exact aqiExceptions_ok r hex

theorem exactFormula_band2 (r : Nat) (hlo : 36 ≤ r) (hhi : r ≤ 55) :
    ⌊exactFormula r⌋.toNat = (10 * r - 355) * 49 / 243 + 101 := by
  have hb := bandOf_eq_2 r hlo hhi
  have e : exactFormula r
      = ((r : ℚ) - ((355 : Nat) : ℚ) / 10) * ((49 : Nat) : ℚ)
          / (((243 : Nat) : ℚ) / 10) + ((101 : Nat) : ℚ) := by
    unfold exactFormula
    rw [hb]
    simp only [AQITable25Decimal, List.get?]
    norm_num
  rw [e, floor_decimal r 355 243 101 49 (by omega) (by norm_num), Int.toNat_ofNat]

theorem derivedAQI25_exact_band2 (r : Nat) (hlo : 36 ≤ r) (hhi : r ≤ 55) :
    derivedAQI25 r = some ⌊exactFormula r⌋.toNat := by
  rcases checkRange_sound _ _ _ _ _ checkRange_band2 r hlo (by omega) with hm | hex
  · rw [exactFormula_band2 r hlo hhi]
    exact band2_sound r hlo hhi hm
  · exact aqiExceptions_ok r hex

theorem exactFormula_band3 (r : Nat) (hlo : 56 ≤ r) (hhi : r ≤ 150) :
    ⌊exactFormula r⌋.toNat = (10 * r - 555) * 49 / 849 + 151 := by
  have hb := bandOf_eq_3 r hlo hhi
  have e : exactFormula r
      = ((r : ℚ) - ((555 : Nat) : ℚ) / 10) * ((49 : Nat) : ℚ)
          / (((849 : Nat) : ℚ) / 10) + ((151 : Nat) : ℚ) := by
    unfold exactFormula
    rw [hb]
    simp only [AQITable25Decimal, List.get?]
    norm_num
  rw [e, floor_decimal r 555 849 151 49 (by omega) (by norm_num), Int.toNat_ofNat]

theorem derivedAQI25_exact_band3 (r : Nat) (hlo : 56 ≤ r) (hhi : r ≤ 150) :
    derivedAQI25 r = some ⌊exactFormula r⌋.toNat := by
  rcases checkRange_sound _ _ _ _ _ checkRange_band3 r hlo (by omega) with hm | hex
  · rw [exactFormula_band3 r hlo hhi]
    exact band3_sound r hlo hhi hm
  · exact aqiExceptions_ok r hex

theorem exactFormula_band4 (r : Nat) (hlo : 151 ≤ r) (hhi : r ≤ 250) :
    ⌊exactFormula r⌋.toNat = (10 * r - 1505) * 99 / 999 + 201 := by
  have hb := bandOf_eq_4 r hlo hhi
  have e : exactFormula r
      = ((r : ℚ) - ((1505 : Nat) : ℚ) / 10) * ((99 : Nat) : ℚ)
          / (((999 : Nat) : ℚ) / 10) + ((201 : Nat) : ℚ) := by
    unfold exactFormula
    rw [hb]
    simp only [AQITable25Decimal, List.get?]
    norm_num
  rw [e, floor_decimal r 1505 999 201 99 (by omega) (by norm_num), Int.toNat_ofNat]

theorem derivedAQI25_exact_band4 (r : Nat) (hlo : 151 ≤ r) (hhi : r ≤ 250) :
    derivedAQI25 r = some ⌊exactFormula r⌋.toNat := by
  rcases checkRange_sound _ _ _ _ _ checkRange_band4 r hlo (by omega) with hm | hex
  · rw [exactFormula_band4 r hlo hhi]
    exact band4_sound r hlo hhi hm
  · exact aqiExceptions_ok r hex

theorem exactFormula_band5 (r : Nat) (hlo : 251 ≤ r) (hhi : r ≤ 350) :
    ⌊exactFormula r⌋.toNat = (10 * r - 2505) * 99 / 999 + 301 := by
  have hb := bandOf_eq_5 r hlo hhi
  have e : exactFormula r
      = ((r : ℚ) - ((2505 : Nat) : ℚ) / 10) * ((99 : Nat) : ℚ)
          / (((999 : Nat) : ℚ) / 10) + ((301 : Nat) : ℚ) := by
    unfold exactFormula
    rw [hb]
    simp only [AQITable25Decimal, List.get?]
    norm_num
  rw [e, floor_decimal r 2505 999 301 99 (by omega) (by norm_num), Int.toNat_ofNat]

theorem derivedAQI25_exact_band5 (r : Nat) (hlo : 251 ≤ r) (hhi : r ≤ 350) :
    derivedAQI25 r = some ⌊exactFormula r⌋.toNat := by
  rcases checkRange_sound _ _ _ _ _ checkRange_band5 r hlo (by omega) with hm | hex
  · rw [exactFormula_band5 r hlo hhi]
    exact band5_sound r hlo hhi hm
  · exact aqiExceptions_ok r hex

theorem exactFormula_band6 (r : Nat) (hlo : 351 ≤ r) (hhi : r ≤ 500) :
    ⌊exactFormula r⌋.toNat = (10 * r - 3505) * 99 / 2499 + 401 := by
  have hb := bandOf_eq_6 r hlo hhi
  have e : exactFormula r
      = ((r : ℚ) - ((3505 : Nat) : ℚ) / 10) * ((99 : Nat) : ℚ)
          / (((2499 : Nat) : ℚ) / 10) + ((401 : Nat) : ℚ) := by
    unfold exactFormula
    rw [hb]
    simp only [AQITable25Decimal, List.get?]
    norm_num
  rw [e, floor_decimal r 3505 2499 401 99 (by omega) (by norm_num), Int.toNat_ofNat]

theorem derivedAQI25_exact_band6 (r : Nat) (hlo : 351 ≤ r) (hhi : r ≤ 500) :
    derivedAQI25 r = some ⌊exactFormula r⌋.toNat := by
  rcases checkRange_sound _ _ _ _ _ checkRange_band6 r hlo (by omega) with hm | hex
  · rw [exactFormula_band6 r hlo hhi]
    exact band6_sound r hlo hhi hm
  · exact aqiExceptions_ok r hex

theorem exactFormula_band7 (r : Nat) (hlo : 501 ≤ r) (hhi : r ≤ 65535) :
    ⌊exactFormula r⌋.toNat = (10 * r - 5005) * 498 / 999999 + 501 := by
  have hb := bandOf_eq_7 r hlo hhi
  have e : exactFormula r
      = ((r : ℚ) - ((5005 : Nat) : ℚ) / 10) * ((498 : Nat) : ℚ)
          / (((999999 : Nat) : ℚ) / 10) + ((501 : Nat) : ℚ) := by
    unfold exactFormula
    rw [hb]
    simp only [AQITable25Decimal, List.get?]
    norm_num
  rw [e, floor_decimal r 5005 999999 501 498 (by omega) (by norm_num), Int.toNat_ofNat]

theorem checkResidues_sound : ∀ (n lo : Nat), checkResidues lo n = true →
    ∀ s : Nat, lo ≤ s → s < lo + n → residueOK s = true := by
  intro n
  induction n with
  | zero => intro lo _ s h1 h2; omega
  | succ k ih =>
    intro lo h s h1 h2
    simp only [checkResidues, Bool.and_eq_true] at h
    by_cases hs : s = lo
    · subst hs; exact h.1
    · exact ih (lo + 1) h.2 s (by omega) (by omega)

theorem checkResidues_low : checkResidues 0 245 = true := by
  decide!

theorem checkResidues_high : checkResidues 999755 244 = true := by
  decide!

/-- In the last band a reading passes the margin test or is one of `aqiExceptions`:
a remainder that fails the test is below 245 or above 999754, and each such remainder
belongs to at most one reading, which `checkResidues` has looked up. -/
theorem band7_margin_or_exception (r : Nat) (hlo : 501 ≤ r) (hhi : r ≤ 65535) :
    marginOK 5005 999999 498 r = true ∨ r ∈ aqiExceptions := by
  by_cases hm : marginOK 5005 999999 498 r = true
  · exact Or.inl hm
  · right
    have hs : (10 * r - 5005) * 498 % 999999 < 999999 := Nat.mod_lt _ (by norm_num)
    have hbad : (10 * r - 5005) * 498 % 999999 < 245 ∨
        999755 ≤ (10 * r - 5005) * 498 % 999999 := by
      by_contra hc
      apply hm
      unfold marginOK
      rw [Bool.and_eq_true]
      exact ⟨Nat.ble_eq_true_of_le (by omega), Nat.ble_eq_true_of_le (by omega)⟩
    have hres : residueOK ((10 * r - 5005) * 498 % 999999) = true := by
      rcases hbad with h | h
      · exact checkResidues_sound _ _ checkResidues_low _ (by omega) (by omega)
      · exact checkResidues_sound _ _ checkResidues_high _ h (by omega)
    have hw : 4980 * r = (10 * r - 5005) * 498 + 2492490 := by omega
    have h1 : (10 * r - 5005) * 498 ≡ (10 * r - 5005) * 498 % 999999 [MOD 999999] :=
      (Nat.mod_modEq _ _).symm
    have h2 : 173293 * 4980 ≡ 3 [MOD 999999] := by decide
    have h3 : 3 * r ≡ 173293 * ((10 * r - 5005) * 498 % 999999 + 2492490) [MOD 999999] := by
      calc 3 * r ≡ 173293 * 4980 * r [MOD 999999] := (h2.mul_right r).symm
        _ = 173293 * ((10 * r - 5005) * 498 + 2492490) := by rw [mul_assoc, hw]
        _ ≡ 173293 * ((10 * r - 5005) * 498 % 999999 + 2492490) [MOD 999999] :=
            (h1.add_right _).mul_left _
    have h4 : 173293 * ((10 * r - 5005) * 498 % 999999 + 2492490) % 999999 = 3 * r := by
      have := h3.symm
      unfold Nat.ModEq at this
      rw [this]
      exact Nat.mod_eq_of_lt (by omega)
    unfold residueOK at hres
    rw [h4] at hres
    have e1 : 3 * r % 3 = 0 := by omega
    have e2 : 3 * r / 3 = r := by omega
    rw [e1, e2] at hres
    simp only [Bool.or_eq_true, Bool.not_eq_true'] at hres
    rcases hres with h | h
    · have hb1 : Nat.ble 501 r = true := Nat.ble_eq_true_of_le hlo
      have hb2 : Nat.ble r 65535 = true := Nat.ble_eq_true_of_le hhi
      rw [hb1, hb2] at h
      simp at h
    · simpa using h

theorem derivedAQI25_exact_band7 (r : Nat) (hlo : 501 ≤ r) (hhi : r ≤ 65535) :
    derivedAQI25 r = some ⌊exactFormula r⌋.toNat := by
  rcases band7_margin_or_exception r hlo hhi with hm | hex
  · rw [exactFormula_band7 r hlo hhi]
    exact band7_sound r hlo hhi hm
  · exact aqiExceptions_ok r hex

/-- On every `uint16_t` reading `derivedAQI25` returns the integer part of the exact
value of the interpolation formula with the decimal constants of the band. -/
theorem derivedAQI25_exact (r : Nat) (hr : r < 65536) :
    derivedAQI25 r = some ⌊exactFormula r⌋.toNat := by
  have hcases : r ≤ 12 ∨ (13 ≤ r ∧ r ≤ 35) ∨ (36 ≤ r ∧ r ≤ 55) ∨ (56 ≤ r ∧ r ≤ 150) ∨
      (151 ≤ r ∧ r ≤ 250) ∨ (251 ≤ r ∧ r ≤ 350) ∨ (351 ≤ r ∧ r ≤ 500) ∨
      (501 ≤ r ∧ r ≤ 65535) := by omega
  rcases hcases with c | c | c | c | c | c | c | c
  · exact derivedAQI25_exact_band0 r (by omega) c
  · exact derivedAQI25_exact_band1 r c.1 c.2
  · exact derivedAQI25_exact_band2 r c.1 c.2
  · exact derivedAQI25_exact_band3 r c.1 c.2
  · exact derivedAQI25_exact_band4 r c.1 c.2
  · exact derivedAQI25_exact_band5 r c.1 c.2
  · exact derivedAQI25_exact_band6 r c.1 c.2
  · exact derivedAQI25_exact_band7 r c.1 c.2

theorem natCast_ge_iff (r k : Nat) (c : ℚ) (h1 : (k : ℚ) - 1 < c) (h2 : c ≤ k) :
    c ≤ (r : ℚ) ↔ k ≤ r := by
  have h := natCast_lt_iff r k c h1 h2
  constructor
  · intro h3
    by_contra h4
    exact absurd (h.mpr (by omega)) (not_lt.mpr h3)
  · intro h3
    by_contra h4
    have := h.mp (not_le.mp h4)
    omega

theorem le_bandOf_iff (r : Nat) :
    (1 ≤ bandOf r ↔ 13 ≤ r) ∧ (2 ≤ bandOf r ↔ 36 ≤ r) ∧ (3 ≤ bandOf r ↔ 56 ≤ r) ∧
    (4 ≤ bandOf r ↔ 151 ≤ r) ∧ (5 ≤ bandOf r ↔ 251 ≤ r) ∧ (6 ≤ bandOf r ↔ 351 ≤ r) ∧
    (7 ≤ bandOf r ↔ 501 ≤ r) ∧ bandOf r ≤ 7 := by
  unfold bandOf
  split_ifs <;> omega

/-- The band of the specification is the last table row whose floor is at most the
reading. -/
theorem floor_le_iff_le_bandOf (r i : Nat) (row : AQIRow)
    (hrow : AQITable25.get? i = some row) : row.pMin ≤ (r : ℚ) ↔ i ≤ bandOf r := by
  obtain ⟨b1, b2, b3, b4, b5, b6, b7, _⟩ := le_bandOf_iff r
  rw [AQITable25_values] at hrow
  rcases i with _ | _ | _ | _ | _ | _ | _ | _ | i
  · simp only [List.get?, Option.some.injEq] at hrow
    subst hrow
    simp
  · simp only [List.get?, Option.some.injEq] at hrow
    subst hrow
    rw [natCast_ge_iff r 13 _ (by norm_num) (by norm_num)]
    exact b1.symm
  · simp only [List.get?, Option.some.injEq] at hrow
    subst hrow
    rw [natCast_ge_iff r 36 _ (by norm_num) (by norm_num)]
    exact b2.symm
  · simp only [List.get?, Option.some.injEq] at hrow
    subst hrow
    rw [natCast_ge_iff r 56 _ (by norm_num) (by norm_num)]
    exact b3.symm
  · simp only [List.get?, Option.some.injEq] at hrow
    subst hrow
    rw [natCast_ge_iff r 151 _ (by norm_num) (by norm_num)]
    exact b4.symm
  · simp only [List.get?, Option.some.injEq] at hrow
    subst hrow
    rw [natCast_ge_iff r 251 _ (by norm_num) (by norm_num)]
    exact b5.symm
  · simp only [List.get?, Option.some.injEq] at hrow
    subst hrow
    rw [natCast_ge_iff r 351 _ (by norm_num) (by norm_num)]
    exact b6.symm
  · simp only [List.get?, Option.some.injEq] at hrow
    subst hrow
    rw [natCast_ge_iff r 501 _ (by norm_num) (by norm_num)]
    exact b7.symm
  · simp [List.get?] at hrow

theorem bandOf_get (r : Nat) : ∃ row, AQITable25.get? (bandOf r) = some row ∧
    0 < row.pRange := by
  obtain ⟨_, _, _, _, _, _, _, h⟩ := le_bandOf_iff r
  rw [AQITable25_values]
  have : bandOf r = 0 ∨ bandOf r = 1 ∨ bandOf r = 2 ∨ bandOf r = 3 ∨ bandOf r = 4 ∨
      bandOf r = 5 ∨ bandOf r = 6 ∨ bandOf r = 7 := by omega
  rcases this with e | e | e | e | e | e | e | e <;> rw [e] <;>
    exact ⟨_, rfl, by norm_num⟩

theorem floatFormula_nonneg (row : AQIRow) (r : Nat) (h1 : row.pMin ≤ floatOfU16 r)
    (h2 : 0 ≤ row.pRange) : 0 ≤ floatFormula row r := by
  unfold floatFormula
  apply f32_nonneg
  apply add_nonneg
  · apply f32_nonneg
    apply div_nonneg _ h2
    apply f32_nonneg
    apply mul_nonneg
    · exact f32_nonneg _ (sub_nonneg.mpr h1)
    · exact f32_nonneg _ (Nat.cast_nonneg _)
  · exact f32_nonneg _ (Nat.cast_nonneg _)

theorem derivedAQI25_eq_floatFormula (r : Nat) (hr : r < 2 ^ 24) (row : AQIRow)
    (hget : AQITable25.get? (bandOf r) = some row) :
    derivedAQI25 r = truncToU16 (floatFormula row r) := by
  unfold derivedAQI25
  simp only [rowIndex_eq_bandOf r hr]
  rw [if_neg (by omega), Int.toNat_ofNat, hget]
  rfl

theorem truncToU16_eq_floor (x : ℚ) (K : Nat) (h0 : 0 ≤ x) (h : truncToU16 x = some K) :
    ⌊x⌋.toNat = K := by
  unfold truncToU16 at h
  simp only [if_pos h0] at h
  split at h
  · simpa using h
  · simp at h

/-- C12: for every unsigned 16-bit reading `r` the scan of `derivedAQI25` selects the
row `bandOf r` (row 0 for 0..12, row 1 for 13..35, row 2 for 36..55, row 3 for 56..150,
row 4 for 151..250, row 5 for 251..350, row 6 for 351..500, the final row from 501 on),
which is the last table row whose concentration floor is at most `r`; the result is the
`float` value of `(r - floor) * aqRange / concRange + aqFloor` for that row, which is
not negative, truncated (its integer part, not the nearest integer); and this result is
also the integer part of the exact value of the formula with the decimal constants
written in the table. -/
theorem C12_derivedAQI25_formula (r : Nat) (hr : r < 65536) :
    rowIndex r = bandOf r ∧
    (∀ (i : Nat) (row : AQIRow), AQITable25.get? i = some row →
      (row.pMin ≤ (r : ℚ) ↔ i ≤ bandOf r)) ∧
    (∃ row : AQIRow, AQITable25.get? (bandOf r) = some row ∧
      0 ≤ floatFormula row r ∧
      derivedAQI25 r = truncToU16 (floatFormula row r) ∧
      derivedAQI25 r = some ⌊floatFormula row r⌋.toNat) ∧
    derivedAQI25 r = some ⌊exactFormula r⌋.toNat := by
  have hr24 : r < 2 ^ 24 := by omega
  have hex := derivedAQI25_exact r hr
  refine ⟨rowIndex_eq_bandOf r hr24, fun i row h => floor_le_iff_le_bandOf r i row h, ?_, hex⟩
  obtain ⟨row, hget, hpos⟩ := bandOf_get r
  have hfl := derivedAQI25_eq_floatFormula r hr24 row hget
  have hmin : row.pMin ≤ floatOfU16 r := by
    rw [floatOfU16_eq r hr24]
    exact (floor_le_iff_le_bandOf r (bandOf r) row hget).mpr (le_refl _)
  have h0 := floatFormula_nonneg row r hmin hpos.le
  refine ⟨row, hget, h0, hfl, ?_⟩
  have hfl2 : truncToU16 (floatFormula row r) = some ⌊exactFormula r⌋.toNat := by
    rw [← hfl]; exact hex
  rw [truncToU16_eq_floor _ _ h0 hfl2]
  exact hex

/-- C12 at a concrete input: reading 35 lies in band 1 and gives 98, the integer part
of the exact value 98.95..., whereas rounding to the nearest integer would give 99. -/
theorem C12_derivedAQI25_formula_witness :
    35 < 65536 ∧ bandOf 35 = 1 ∧ derivedAQI25 35 = some ⌊exactFormula 35⌋.toNat ∧
    ⌊exactFormula 35⌋.toNat = 98 ∧ roundHalfEven (exactFormula 35) = 99 :=
  ⟨by decide, by decide, (C12_derivedAQI25_formula 35 (by decide)).2.2.2, by decide!,
    by decide!⟩

end AQS
